import Mathlib

/-!
Verification development for the HermitCore `uhyve` monitor
(`src/tools/uhyve.c`).  Each section embeds one part of the C source as
executable Lean definitions and proves the properties stated about it.
-/

namespace Uhyve

/-! ## Constants from `src/tools/uhyve.c` -/

def GUEST_OFFSET : Nat := 0x0

def GUEST_PAGE_SIZE : Nat := 0x200000

def BOOT_PML4 : Nat := 0x10000

def BOOT_PDPTE : Nat := 0x11000

def BOOT_PDE : Nat := 0x12000

def KVM_32BIT_MAX_MEM_SIZE : Nat := 1 <<< 32

def KVM_32BIT_GAP_SIZE : Nat := 768 <<< 20

def KVM_32BIT_GAP_START : Nat := KVM_32BIT_MAX_MEM_SIZE - KVM_32BIT_GAP_SIZE

/-- Largest value of the C type `ssize_t` (`SSIZE_MAX`), used by
`pread_in_full` to reject oversized reads with `E2BIG`. -/
def SSIZE_MAX : Nat := 2 ^ 63 - 1

/-! ## `memparse` (`src/tools/uhyve.c`, lines 176-206)

`memparse` calls `strtoull(ptr, &endptr, 0)` and then applies a cascade of
fall-through `<<= 10` shifts depending on the single character at `endptr`.
All arithmetic is on `size_t`, i.e. modulo `2^64`.  We embed `strtoull`
with base `0` (hex `0x` prefix, octal `0` prefix, decimal otherwise,
optional sign and leading whitespace, saturation at `ULLONG_MAX` on
overflow) over `List Char`, returning the parsed value together with the
rest of the string (`endptr`). -/

/-- Numeric value of a character in the given base, as `strtoull` accepts
digits: `0-9`, then letters `a-z`/`A-Z` for values `10..35`; a digit is
accepted only when its value is below the base. -/
def digitVal (base : Nat) (c : Char) : Option Nat :=
  let v : Option Nat :=
    if '0' ≤ c ∧ c ≤ '9' then some (c.toNat - 48)
    else if 'a' ≤ c ∧ c ≤ 'z' then some (c.toNat - 97 + 10)
    else if 'A' ≤ c ∧ c ≤ 'Z' then some (c.toNat - 65 + 10)
    else none
  match v with
  | some v => if v < base then some v else none
  | none => none

/-- Accumulate digits of the given base from the front of the list,
returning the exact (unbounded) value and the unconsumed rest. -/
def parseDigitsAux (base : Nat) : List Char → Nat → Nat × List Char
  | [], acc => (acc, [])
  | c :: cs, acc =>
    match digitVal base c with
    | some v => parseDigitsAux base cs (acc * base + v)
    | none => (acc, c :: cs)

/-- Body of `strtoull` with base argument `0`: a leading `0x`/`0X`
followed by a hex digit selects base 16, a leading `0` selects base 8,
anything else base 10. -/
def strtoullBody : List Char → Nat × List Char
  | [] => (0, [])
  | c :: rest =>
    if c = '0' then
      match rest with
      | c1 :: rest2 =>
        if c1 = 'x' ∨ c1 = 'X' then
          match rest2 with
          | r :: _ =>
            if (digitVal 16 r).isSome then parseDigitsAux 16 rest2 0
            else (0, rest)
          | [] => (0, rest)
        else parseDigitsAux 8 rest 0
      | [] => (0, [])
    else parseDigitsAux 10 (c :: rest) 0

/-- Whitespace characters skipped by `strtoull` (C `isspace`). -/
def isSpaceChar (c : Char) : Bool :=
  c = ' ' ∨ c = '\t' ∨ c = '\n' ∨ c = '\x0b' ∨ c = '\x0c' ∨ c = '\r'

/-- `strtoull(s, &endptr, 0)`: skip whitespace, optional sign, parse the
magnitude; overflow saturates at `ULLONG_MAX = 2^64 - 1`; a `-` sign
negates the (non-saturated) value in unsigned 64-bit arithmetic. -/
def strtoull (s : List Char) : Nat × List Char :=
  let s1 := s.dropWhile isSpaceChar
  match s1 with
  | [] => (0, [])
  | c :: rest =>
    if c = '+' then
      let p := strtoullBody rest
      (if 2 ^ 64 ≤ p.1 then 2 ^ 64 - 1 else p.1, p.2)
    else if c = '-' then
      let p := strtoullBody rest
      (if 2 ^ 64 ≤ p.1 then 2 ^ 64 - 1 else (2 ^ 64 - p.1) % 2 ^ 64, p.2)
    else
      let p := strtoullBody (c :: rest)
      (if 2 ^ 64 ≤ p.1 then 2 ^ 64 - 1 else p.1, p.2)

/-- Total shift applied by the fall-through `switch` in `memparse`:
`E`/`e` falls through all six `<<= 10` cases, ..., `K`/`k` only the
last one; any other character shifts by nothing. -/
def suffixShift (c : Char) : Nat :=
  if c = 'E' ∨ c = 'e' then 60
  else if c = 'P' ∨ c = 'p' then 50
  else if c = 'T' ∨ c = 't' then 40
  else if c = 'G' ∨ c = 'g' then 30
  else if c = 'M' ∨ c = 'm' then 20
  else if c = 'K' ∨ c = 'k' then 10
  else 0

/-- `memparse` (`src/tools/uhyve.c:176`): parse with `strtoull` and apply
the suffix shifts on the 64-bit `size_t` result. -/
def memparse (s : String) : Nat :=
  let p := strtoull s.data
  match p.2 with
  | [] => p.1
  | c :: _ => (p.1 <<< suffixShift c) % 2 ^ 64

/-! ### Decimal inputs for `memparse` -/

/-- The characters of a decimal numeral given by its digit values. -/
def decimalChars (ds : List Nat) : List Char :=
  ds.map (fun d => Char.ofNat (48 + d))

/-- Value of a digit-value list read in base 10. -/
def decimalVal (ds : List Nat) : Nat :=
  ds.foldl (fun a d => a * 10 + d) 0

/-- The twelve suffix letters accepted by `memparse`. -/
def suffixLetters : List Char :=
  ['K', 'k', 'M', 'm', 'G', 'g', 'T', 't', 'P', 'p', 'E', 'e']

lemma digitVal_digit (d : Nat) (h : d < 10) :
    digitVal 10 (Char.ofNat (48 + d)) = some d := by
  interval_cases d <;> decide

lemma digitChar_head_facts (d : Nat) (h1 : 1 ≤ d) (h2 : d < 10) :
    isSpaceChar (Char.ofNat (48 + d)) = false ∧ Char.ofNat (48 + d) ≠ '+' ∧
      Char.ofNat (48 + d) ≠ '-' ∧ Char.ofNat (48 + d) ≠ '0' := by
  interval_cases d <;> exact ⟨by decide, by decide, by decide, by decide⟩

lemma parseDigitsAux_decimal (ds : List Nat) (rest : List Char) (acc : Nat)
    (hd : ∀ d ∈ ds, d < 10)
    (hrest : ∀ c cs, rest = c :: cs → digitVal 10 c = none) :
    parseDigitsAux 10 (decimalChars ds ++ rest) acc
      = (ds.foldl (fun a d => a * 10 + d) acc, rest) := by
  induction ds generalizing acc with
  | nil =>
    cases rest with
    | nil => simp [parseDigitsAux, decimalChars]
    | cons c cs =>
      simp only [decimalChars, List.map_nil, List.nil_append, parseDigitsAux,
        hrest c cs rfl, List.foldl_nil]
  | cons d ds ih =>
    have hd0 : d < 10 := hd d (by simp)
    simp only [decimalChars, List.map_cons, List.cons_append, parseDigitsAux,
      digitVal_digit d hd0, List.foldl_cons]
    exact ih (acc * 10 + d) (fun x hx => hd x (by simp [hx]))

lemma strtoull_of_head (c : Char) (l : List Char) (hsp : isSpaceChar c = false)
    (hplus : c ≠ '+') (hminus : c ≠ '-') :
    strtoull (c :: l)
      = (if 2 ^ 64 ≤ (strtoullBody (c :: l)).1 then 2 ^ 64 - 1
          else (strtoullBody (c :: l)).1, (strtoullBody (c :: l)).2) := by
  simp [strtoull, List.dropWhile_cons, hsp, if_neg hplus, if_neg hminus]

lemma strtoull_decimal (d0 : Nat) (ds : List Nat) (rest : List Char)
    (h1 : 1 ≤ d0) (h2 : d0 < 10) (hd : ∀ d ∈ ds, d < 10)
    (hrest : ∀ c cs, rest = c :: cs → digitVal 10 c = none) :
    strtoull (decimalChars (d0 :: ds) ++ rest)
      = (if 2 ^ 64 ≤ decimalVal (d0 :: ds) then 2 ^ 64 - 1
          else decimalVal (d0 :: ds), rest) := by
  obtain ⟨hsp, hplus, hminus, hzero⟩ := digitChar_head_facts d0 h1 h2
  have hds : ∀ d ∈ d0 :: ds, d < 10 := by
    intro x hx
    rcases List.mem_cons.mp hx with h | h
    · omega
    · exact hd x h
  have hparse := parseDigitsAux_decimal (d0 :: ds) rest 0 hds hrest
  have hcons : decimalChars (d0 :: ds) = Char.ofNat (48 + d0) :: decimalChars ds := by
    simp [decimalChars]
  rw [hcons, List.cons_append] at hparse ⊢
  have hbody : strtoullBody (Char.ofNat (48 + d0) :: (decimalChars ds ++ rest))
      = (decimalVal (d0 :: ds), rest) := by
    simp only [strtoullBody, if_neg hzero]
    simpa [decimalVal] using hparse
  rw [strtoull_of_head _ _ hsp hplus hminus, hbody]

lemma memparse_decimal_suffix (d0 : Nat) (ds : List Nat) (c : Char)
    (h1 : 1 ≤ d0) (h2 : d0 < 10) (hd : ∀ d ∈ ds, d < 10)
    (hcnone : digitVal 10 c = none) :
    memparse (String.mk (decimalChars (d0 :: ds) ++ [c]))
      = ((if 2 ^ 64 ≤ decimalVal (d0 :: ds) then 2 ^ 64 - 1
          else decimalVal (d0 :: ds)) * 2 ^ suffixShift c) % 2 ^ 64 := by
  have hrest : ∀ c' cs, ([c] : List Char) = c' :: cs → digitVal 10 c' = none := by
    intro c' cs h
    cases h
    exact hcnone
  have h := strtoull_decimal d0 ds [c] h1 h2 hd hrest
  show memparse ⟨decimalChars (d0 :: ds) ++ [c]⟩ = _
  simp [memparse, h, Nat.shiftLeft_eq]

lemma memparse_decimal (d0 : Nat) (ds : List Nat)
    (h1 : 1 ≤ d0) (h2 : d0 < 10) (hd : ∀ d ∈ ds, d < 10) :
    memparse (String.mk (decimalChars (d0 :: ds)))
      = if 2 ^ 64 ≤ decimalVal (d0 :: ds) then 2 ^ 64 - 1
        else decimalVal (d0 :: ds) := by
  have hrest : ∀ c' cs, ([] : List Char) = c' :: cs → digitVal 10 c' = none := by
    intro c' cs h
    cases h
  have h := strtoull_decimal d0 ds [] h1 h2 hd hrest
  rw [List.append_nil] at h
  show memparse ⟨decimalChars (d0 :: ds)⟩ = _
  simp [memparse, h]

/-! ### Hex inputs for `memparse` (`0x` prefix, base 16 in `strtoull`) -/

/-- The (lowercase) character of one hex digit value. -/
def hexDigitChar (d : Nat) : Char :=
  if d < 10 then Char.ofNat (48 + d) else Char.ofNat (87 + d)

/-- The characters of a hex numeral given by its digit values. -/
def hexChars (ds : List Nat) : List Char :=
  ds.map hexDigitChar

/-- Value of a digit-value list read in base 16. -/
def hexVal (ds : List Nat) : Nat :=
  ds.foldl (fun a d => a * 16 + d) 0

/-- The suffix letters that are not hex digits: after a `0x` numeral,
`E`/`e` are consumed by `strtoull` as hex digits and never reach the
suffix switch, so only these ten can act as suffixes there. -/
def hexSuffixLetters : List Char :=
  ['K', 'k', 'M', 'm', 'G', 'g', 'T', 't', 'P', 'p']

lemma digitVal_hexDigitChar (d : Nat) (h : d < 16) :
    digitVal 16 (hexDigitChar d) = some d := by
  interval_cases d <;> decide

lemma parseDigitsAux_hex (ds : List Nat) (rest : List Char) (acc : Nat)
    (hd : ∀ d ∈ ds, d < 16)
    (hrest : ∀ c cs, rest = c :: cs → digitVal 16 c = none) :
    parseDigitsAux 16 (hexChars ds ++ rest) acc
      = (ds.foldl (fun a d => a * 16 + d) acc, rest) := by
  induction ds generalizing acc with
  | nil =>
    cases rest with
    | nil => simp [parseDigitsAux, hexChars]
    | cons c cs =>
      simp only [hexChars, List.map_nil, List.nil_append, parseDigitsAux,
        hrest c cs rfl, List.foldl_nil]
  | cons d ds ih =>
    have hd0 : d < 16 := hd d (by simp)
    simp only [hexChars, List.map_cons, List.cons_append, parseDigitsAux,
      digitVal_hexDigitChar d hd0, List.foldl_cons]
    exact ih (acc * 16 + d) (fun x hx => hd x (by simp [hx]))

lemma strtoullBody_hex (e0 : Nat) (es : List Nat) (rest : List Char)
    (he0 : e0 < 16) (hes : ∀ d ∈ es, d < 16)
    (hrest : ∀ c cs, rest = c :: cs → digitVal 16 c = none) :
    strtoullBody ('0' :: 'x' :: (hexChars (e0 :: es) ++ rest))
      = (hexVal (e0 :: es), rest) := by
  have hds : ∀ d ∈ e0 :: es, d < 16 := by
    intro x hx
    rcases List.mem_cons.mp hx with h | h
    · omega
    · exact hes x h
  have hparse := parseDigitsAux_hex (e0 :: es) rest 0 hds hrest
  have hcons : hexChars (e0 :: es) = hexDigitChar e0 :: hexChars es := by
    simp [hexChars]
  rw [hcons, List.cons_append] at hparse ⊢
  simp only [strtoullBody, if_pos rfl, digitVal_hexDigitChar e0 he0,
    Option.isSome_some, if_true]
  simp only [← List.cons_append, ← hcons]
  simpa [hexVal, hcons] using hparse

lemma strtoull_hex (e0 : Nat) (es : List Nat) (rest : List Char)
    (he0 : e0 < 16) (hes : ∀ d ∈ es, d < 16)
    (hrest : ∀ c cs, rest = c :: cs → digitVal 16 c = none) :
    strtoull ('0' :: 'x' :: (hexChars (e0 :: es) ++ rest))
      = (if 2 ^ 64 ≤ hexVal (e0 :: es) then 2 ^ 64 - 1
          else hexVal (e0 :: es), rest) := by
  rw [strtoull_of_head '0' _ (by decide) (by decide) (by decide),
    strtoullBody_hex e0 es rest he0 hes hrest]

lemma memparse_hex_suffix (e0 : Nat) (es : List Nat) (c : Char)
    (he0 : e0 < 16) (hes : ∀ d ∈ es, d < 16)
    (hcnone : digitVal 16 c = none) :
    memparse (String.mk ('0' :: 'x' :: (hexChars (e0 :: es) ++ [c])))
      = ((if 2 ^ 64 ≤ hexVal (e0 :: es) then 2 ^ 64 - 1
          else hexVal (e0 :: es)) * 2 ^ suffixShift c) % 2 ^ 64 := by
  have hrest : ∀ c' cs, ([c] : List Char) = c' :: cs → digitVal 16 c' = none := by
    intro c' cs h
    cases h
    exact hcnone
  have h := strtoull_hex e0 es [c] he0 hes hrest
  show memparse ⟨'0' :: 'x' :: (hexChars (e0 :: es) ++ [c])⟩ = _
  simp [memparse, h, Nat.shiftLeft_eq]

lemma memparse_hex (e0 : Nat) (es : List Nat)
    (he0 : e0 < 16) (hes : ∀ d ∈ es, d < 16) :
    memparse (String.mk ('0' :: 'x' :: hexChars (e0 :: es)))
      = if 2 ^ 64 ≤ hexVal (e0 :: es) then 2 ^ 64 - 1
        else hexVal (e0 :: es) := by
  have hrest : ∀ c' cs, ([] : List Char) = c' :: cs → digitVal 16 c' = none := by
    intro c' cs h
    cases h
  have h := strtoull_hex e0 es [] he0 hes hrest
  rw [List.append_nil] at h
  show memparse ⟨'0' :: 'x' :: hexChars (e0 :: es)⟩ = _
  simp [memparse, h]

/-- **C3 (counterexample).** The claim states that a trailing `E` suffix
multiplies the parsed integer by `1024^6` for every input.  The shifts in
`memparse` are performed on the 64-bit `size_t`, so they wrap:
`memparse("16E")` yields `0`, not `16 * 1024^6 = 2^64`. -/
theorem memparse_suffix_counterexample :
    memparse ("16E") = 0 ∧ memparse ("16E") ≠ 16 * 1024 ^ 6 := by
  exact ⟨by decide, by decide⟩

/-- **C3 (amended).** The size parser maps a decimal or hex (`0x`-prefixed)
integer string with an optional single trailing suffix letter to bytes in
`size_t` (modulo-`2^64`) arithmetic: `memparse("2M") = 2 * 1024 * 1024`;
for every decimal numeral (nonzero leading digit) and every hex numeral,
each suffix letter `K`/`M`/`G`/`T`/`P`/`E` (case-insensitive) multiplies
the parsed value by `1024`, `1024^2`, ..., `1024^6` respectively, reduced
modulo `2^64` — except that after a hex numeral the letters `E`/`e` are
themselves hex digits and are absorbed into the numeral by `strtoull`
instead of acting as suffixes (`memparse("0x1E") = 0x1E`); a numeral
exceeding `2^64 - 1` first saturates to `ULLONG_MAX = 2^64 - 1`; an
input with no suffix returns the bare (saturated) integer. -/
theorem memparse_suffix_amended (d0 : Nat) (ds : List Nat) (c : Char)
    (e0 : Nat) (es : List Nat) (c2 : Char)
    (h1 : 1 ≤ d0) (h2 : d0 < 10) (hd : ∀ d ∈ ds, d < 10)
    (hc : c ∈ suffixLetters)
    (he0 : e0 < 16) (hes : ∀ d ∈ es, d < 16)
    (hc2 : c2 ∈ hexSuffixLetters) :
    (decimalVal (d0 :: ds) < 2 ^ 64 →
        memparse (String.mk (decimalChars (d0 :: ds) ++ [c]))
          = (decimalVal (d0 :: ds) * 2 ^ suffixShift c) % 2 ^ 64)
      ∧ (decimalVal (d0 :: ds) < 2 ^ 64 →
        memparse (String.mk (decimalChars (d0 :: ds))) = decimalVal (d0 :: ds))
      ∧ (2 ^ 64 ≤ decimalVal (d0 :: ds) →
        memparse (String.mk (decimalChars (d0 :: ds) ++ [c]))
          = ((2 ^ 64 - 1) * 2 ^ suffixShift c) % 2 ^ 64)
      ∧ (2 ^ 64 ≤ decimalVal (d0 :: ds) →
        memparse (String.mk (decimalChars (d0 :: ds))) = 2 ^ 64 - 1)
      ∧ (hexVal (e0 :: es) < 2 ^ 64 →
        memparse (String.mk ('0' :: 'x' :: (hexChars (e0 :: es) ++ [c2])))
          = (hexVal (e0 :: es) * 2 ^ suffixShift c2) % 2 ^ 64)
      ∧ (hexVal (e0 :: es) < 2 ^ 64 →
        memparse (String.mk ('0' :: 'x' :: hexChars (e0 :: es)))
          = hexVal (e0 :: es))
      ∧ (2 ^ 64 ≤ hexVal (e0 :: es) →
        memparse (String.mk ('0' :: 'x' :: (hexChars (e0 :: es) ++ [c2])))
          = ((2 ^ 64 - 1) * 2 ^ suffixShift c2) % 2 ^ 64)
      ∧ (2 ^ 64 ≤ hexVal (e0 :: es) →
        memparse (String.mk ('0' :: 'x' :: hexChars (e0 :: es)))
          = 2 ^ 64 - 1)
      ∧ memparse ("0x1E") = 0x1E
      ∧ memparse ("2M") = 2 * 1024 * 1024
      ∧ 2 ^ suffixShift 'K' = 1024 ∧ 2 ^ suffixShift 'k' = 1024
      ∧ 2 ^ suffixShift 'M' = 1024 ^ 2 ∧ 2 ^ suffixShift 'm' = 1024 ^ 2
      ∧ 2 ^ suffixShift 'G' = 1024 ^ 3 ∧ 2 ^ suffixShift 'g' = 1024 ^ 3
      ∧ 2 ^ suffixShift 'T' = 1024 ^ 4 ∧ 2 ^ suffixShift 't' = 1024 ^ 4
      ∧ 2 ^ suffixShift 'P' = 1024 ^ 5 ∧ 2 ^ suffixShift 'p' = 1024 ^ 5
      ∧ 2 ^ suffixShift 'E' = 1024 ^ 6 ∧ 2 ^ suffixShift 'e' = 1024 ^ 6 := by
  have hcnone : digitVal 10 c = none := by
    fin_cases hc <;> decide
  have hc2none : digitVal 16 c2 = none := by
    fin_cases hc2 <;> decide
  refine ⟨?_, ?_, ?_, ?_, ?_, ?_, ?_, ?_, by decide, by decide, by decide,
    by decide, by decide, by decide, by decide, by decide, by decide,
    by decide, by decide, by decide, by decide, by decide⟩
  · intro hlt
    rw [memparse_decimal_suffix d0 ds c h1 h2 hd hcnone, if_neg (by omega)]
  · intro hlt
    rw [memparse_decimal d0 ds h1 h2 hd, if_neg (by omega)]
  · intro hge
    rw [memparse_decimal_suffix d0 ds c h1 h2 hd hcnone, if_pos hge]
  · intro hge
    rw [memparse_decimal d0 ds h1 h2 hd, if_pos hge]
  · intro hlt
    rw [memparse_hex_suffix e0 es c2 he0 hes hc2none, if_neg (by omega)]
  · intro hlt
    rw [memparse_hex e0 es he0 hes, if_neg (by omega)]
  · intro hge
    rw [memparse_hex_suffix e0 es c2 he0 hes hc2none, if_pos hge]
  · intro hge
    rw [memparse_hex e0 es he0 hes, if_pos hge]

/-- Witness for C3 at the concrete inputs `"2M"` (digits `[2]`, suffix
`'M'`) and `"0x1K"` (hex digits `[1]`, suffix `'K'`). -/
theorem memparse_suffix_amended_witness :
    memparse (String.mk (decimalChars (2 :: []) ++ ['M']))
        = (decimalVal (2 :: []) * 2 ^ suffixShift 'M') % 2 ^ 64
      ∧ memparse (String.mk ('0' :: 'x' :: (hexChars (1 :: []) ++ ['K'])))
        = (hexVal (1 :: []) * 2 ^ suffixShift 'K') % 2 ^ 64 :=
  ⟨(memparse_suffix_amended 2 [] 'M' 1 [] 'K' (by decide) (by decide)
      (by intro d h; cases h) (by decide) (by decide)
      (by intro d h; cases h) (by decide)).1 (by decide),
    (memparse_suffix_amended 2 [] 'M' 1 [] 'K' (by decide) (by decide)
      (by intro d h; cases h) (by decide) (by decide)
      (by intro d h; cases h) (by decide)).2.2.2.2.1 (by decide)⟩

/-! ## Guest-size bound (`uhyve_init`, `src/tools/uhyve.c:769`) -/

/-- The runtime check `assert(guest_size < KVM_32BIT_GAP_SIZE)` in
`uhyve_init`: initialization proceeds past this point exactly when the
condition holds; otherwise the assert aborts the process before the guest
memory is mapped and before any vCPU runs. -/
def guestSizeAssertPasses (guest_size : Nat) : Bool :=
  decide (guest_size < KVM_32BIT_GAP_SIZE)

/-- **C2.** For every `guest_size` for which the initialization check
passes (so initialization can complete), `guest_size < 0xC0000000` holds,
and every `guest_size` at or above `0xC0000000` fails the check, so it is
rejected before the guest runs.  (The check itself is the stricter
`guest_size < KVM_32BIT_GAP_SIZE = 0x30000000`.) -/
theorem guest_size_bound (gs : Nat) :
    (guestSizeAssertPasses gs = true → gs < 0xC0000000)
      ∧ (0xC0000000 ≤ gs → guestSizeAssertPasses gs = false) := by
  constructor <;> intro h <;>
    simp only [guestSizeAssertPasses, KVM_32BIT_GAP_SIZE, decide_eq_true_eq,
      decide_eq_false_iff_not, not_lt] at * <;> omega

/-- Witness for C2 at the default guest size `0x20000000`. -/
theorem guest_size_bound_witness : 0x20000000 < 0xC0000000 :=
  (guest_size_bound 0x20000000).1 (by decide)

/-! ## ELF header validation (`load_kernel`, `src/tools/uhyve.c:321-412`) -/

def ELFMAG0 : Nat := 0x7f

def ELFMAG1 : Nat := 0x45

def ELFMAG2 : Nat := 0x4c

def ELFMAG3 : Nat := 0x46

def ELFCLASS64 : Nat := 2

def ET_EXEC : Nat := 2

def EM_X86_64 : Nat := 62

/-- The fields of `Elf64_Ehdr` inspected by `load_kernel`'s validation. -/
structure Elf64Ehdr where
  ei_mag0 : Nat
  ei_mag1 : Nat
  ei_mag2 : Nat
  ei_mag3 : Nat
  ei_class : Nat
  ei_osabi : Nat
  e_type : Nat
  e_machine : Nat

/-- The identification check of `load_kernel` (`src/tools/uhyve.c:341-350`).
The expected OS/ABI octet `HERMIT_ELFOSABI` is defined in `proxy.h`, which
is not among the sources, so the check is parametric in it. -/
def elfHdrOk (hermitOsabi : Nat) (h : Elf64Ehdr) : Bool :=
  decide (h.ei_mag0 = ELFMAG0 ∧ h.ei_mag1 = ELFMAG1 ∧ h.ei_mag2 = ELFMAG2
    ∧ h.ei_mag3 = ELFMAG3 ∧ h.ei_class = ELFCLASS64 ∧ h.ei_osabi = hermitOsabi
    ∧ h.e_type = ET_EXEC ∧ h.e_machine = EM_X86_64)

/-- Return value of `load_kernel` as a function of whether `open`
succeeded and of the header check.  In the source, a failed check prints
`"Inavlide HermitCore file!"` and jumps to the label `out`, but every path
through `out` ends in `return 0` (`src/tools/uhyve.c:405-411`); only a
failed `open` returns `-1` (line 334). -/
def load_kernel_ret (openOk : Bool) (hermitOsabi : Nat) (h : Elf64Ehdr) : Int :=
  if openOk = false then -1
  else if elfHdrOk hermitOsabi h = false then 0
  else 0

/-- The caller gate in `uhyve_init` (`src/tools/uhyve.c:776-777`):
`exit(EXIT_FAILURE)` is reached iff `load_kernel` returned nonzero. -/
def uhyveInitExitsFailure (loadRet : Int) : Bool :=
  decide (loadRet ≠ 0)

/-- An ELF header that is valid except for `e_machine = 40` (ARM instead
of x86-64), for any OS/ABI octet value `0x42`. -/
def badMachineEhdr : Elf64Ehdr :=
  { ei_mag0 := 0x7f, ei_mag1 := 0x45, ei_mag2 := 0x4c, ei_mag3 := 0x46,
    ei_class := 2, ei_osabi := 0x42, e_type := 2, e_machine := 40 }

/-- **C1 (code bug).** The claim — and the intent evidenced by the error
message, the `goto out` rejection path, and the `exit(EXIT_FAILURE)` gate
in `uhyve_init` — is that an image failing validation makes the monitor
abort.  The code, however, ends every path through `out` with `return 0`,
so for an image whose `e_machine` is not x86-64 the header check fails,
`load_kernel` still returns `0`, and `uhyve_init` proceeds instead of
exiting with `EXIT_FAILURE`. -/
theorem load_kernel_invalid_header_not_fatal :
    elfHdrOk 0x42 badMachineEhdr = false
      ∧ load_kernel_ret true 0x42 badMachineEhdr = 0
      ∧ uhyveInitExitsFailure (load_kernel_ret true 0x42 badMachineEhdr) = false :=
  ⟨by decide, by decide, by decide⟩

/-! ## CLOSE hypercall (`vcpu_loop`, `src/tools/uhyve.c:613-620`) -/

/-- The guest record for `UHYVE_PORT_CLOSE` (`uhyve_close_t`). -/
structure UhyveCloseRec where
  fd : Int
  ret : Int
deriving DecidableEq

/-- The `UHYVE_PORT_CLOSE` case of `vcpu_loop`: the host `close` is
performed (second component: the fd passed to host `close`, or `none`)
iff the incoming `ret` field is greater than `2`, and then its result
overwrites `ret`.  `hostClose` is the host's `close` as an oracle. -/
def handle_close (hostClose : Int → Int) (r : UhyveCloseRec) :
    UhyveCloseRec × Option Int :=
  if 2 < r.ret then ({ fd := r.fd, ret := hostClose r.fd }, some r.fd)
  else (r, none)

/-- **C6.** The CLOSE handler performs a host `close(fd)` iff the record's
incoming `ret` field is greater than 2, in which case it overwrites `ret`
with the close result (leaving `fd` unchanged); for every record with
`ret <= 2` no host close occurs and the record is left unchanged. -/
theorem close_hypercall_gate (hostClose : Int → Int) (r : UhyveCloseRec) :
    ((handle_close hostClose r).2 ≠ none ↔ 2 < r.ret)
      ∧ (2 < r.ret → (handle_close hostClose r).2 = some r.fd
          ∧ (handle_close hostClose r).1.ret = hostClose r.fd
          ∧ (handle_close hostClose r).1.fd = r.fd)
      ∧ (r.ret ≤ 2 → (handle_close hostClose r).2 = none
          ∧ (handle_close hostClose r).1 = r) := by
  by_cases h : 2 < r.ret <;> simp [handle_close, h]

/-- Witness for C6: a record with `ret = 7 > 2` gets the host close
result written into `ret`. -/
theorem close_hypercall_gate_witness :
    (handle_close (fun _ => 0) { fd := 5, ret := 7 }).1.ret = 0 :=
  ((close_hypercall_gate (fun _ => 0) { fd := 5, ret := 7 }).2.1
    (by decide)).2.1

/-! ## NETREAD hypercall (`vcpu_loop`, `src/tools/uhyve.c:644-657`) -/

/-- The guest record for `UHYVE_PORT_NETREAD` (`uhyve_netread_t`,
declared in `uhyve-net.c`; layout per the spec table: guest buffer
address, length, return field). -/
structure UhyveNetreadRec where
  data : Nat
  len : Nat
  ret : Int
deriving DecidableEq

/-- Outcome of the host `read` on the TAP fd: `ok n` for a return of
`n ≥ 0` bytes, `err e` for a return of `-1` with `errno = e`. -/
inductive HostReadResult where
  | ok (n : Nat)
  | err (errno : Nat)
deriving DecidableEq

def EAGAIN : Nat := 11

/-- Outcome of the NETREAD handler: either the mutated record, or the
process aborting on the failed `assert(ret > 0)`. -/
inductive NetreadStep where
  | done (r : UhyveNetreadRec)
  | assertFailed
deriving DecidableEq

/-- Conversion of the host `read` return value (a `ssize_t`) to the
C `int` local `ret` of the handler. -/
def int32ofNat (n : Nat) : Int :=
  if n % 2 ^ 32 < 2 ^ 31 then ((n % 2 ^ 32 : Nat) : Int)
  else ((n % 2 ^ 32 : Nat) : Int) - 2 ^ 32

/-- Whether the host read failed with `EAGAIN` (the C code consults
`errno` only after `read` returned `-1`). -/
def isEagainErr : HostReadResult → Bool
  | HostReadResult.err e => decide (e = EAGAIN)
  | HostReadResult.ok _ => false

/-- The `UHYVE_PORT_NETREAD` case of `vcpu_loop`: mirrors
`if ((ret == 0) || (ret == -1 && errno == EAGAIN)) \x7b ->ret = -1; break; \x7d
assert(ret > 0); ->len = ret; ->ret = 0;`. -/
def handle_netread (res : HostReadResult) (r : UhyveNetreadRec) : NetreadStep :=
  let retv : Int :=
    match res with
    | HostReadResult.ok n => int32ofNat n
    | HostReadResult.err _ => -1
  if retv = 0 ∨ (retv = -1 ∧ isEagainErr res = true) then
    NetreadStep.done { data := r.data, len := r.len, ret := -1 }
  else if 0 < retv then
    NetreadStep.done { data := r.data, len := retv.toNat, ret := 0 }
  else NetreadStep.assertFailed

/-- **C7.** The NETREAD handler: when the host read returns 0 (EOF) or
fails with `EAGAIN`, it sets `ret = -1` and leaves `len` (and `data`)
unchanged; when the read returns `n > 0` bytes (any realistic count,
below `2^31`), it writes `n` into `len` and sets `ret = 0`. -/
theorem netread_hypercall_spec (r : UhyveNetreadRec) :
    handle_netread (HostReadResult.ok 0) r
        = NetreadStep.done { data := r.data, len := r.len, ret := -1 }
      ∧ handle_netread (HostReadResult.err EAGAIN) r
        = NetreadStep.done { data := r.data, len := r.len, ret := -1 }
      ∧ (∀ n : Nat, 0 < n → n < 2 ^ 31 →
          handle_netread (HostReadResult.ok n) r
            = NetreadStep.done { data := r.data, len := n, ret := 0 }) := by
  refine ⟨by simp [handle_netread, int32ofNat], by simp [handle_netread, isEagainErr], ?_⟩
  intro n hn h31
  have hmod : n % 2 ^ 32 = n := Nat.mod_eq_of_lt (by omega)
  have hv : int32ofNat n = (n : Int) := by
    simp only [int32ofNat, hmod]
    rw [if_pos (by exact_mod_cast h31)]
  simp only [handle_netread, hv]
  rw [if_neg (by rintro (h | ⟨h, _⟩) <;> omega), if_pos (by exact_mod_cast hn)]
  simp

/-- Witness for C7: a successful read of 3 bytes updates `len` to 3 and
`ret` to 0. -/
theorem netread_hypercall_spec_witness :
    handle_netread (HostReadResult.ok 3) { data := 0, len := 64, ret := 7 }
      = NetreadStep.done { data := 0, len := 3, ret := 0 } :=
  (netread_hypercall_spec { data := 0, len := 64, ret := 7 }).2.2 3
    (by decide) (by decide)

/-- **C10.** For every NETREAD hypercall whose host read fails with an
errno other than `EAGAIN`, the handler's `assert(ret > 0)` fails (the
local `ret` is `-1`), so the monitor aborts; in particular no mutated
record — and hence no error report through the record's `ret` field —
is ever produced. -/
theorem netread_error_aborts (r : UhyveNetreadRec) (e : Nat) (he : e ≠ EAGAIN) :
    handle_netread (HostReadResult.err e) r = NetreadStep.assertFailed
      ∧ ∀ r', handle_netread (HostReadResult.err e) r ≠ NetreadStep.done r' := by
  have h : handle_netread (HostReadResult.err e) r = NetreadStep.assertFailed := by
    simp [handle_netread, isEagainErr, he]
  exact ⟨h, fun r' hr' => by rw [h] at hr'; exact NetreadStep.noConfusion hr'⟩

/-- Witness for C10 at `errno = 9` (`EBADF`). -/
theorem netread_error_aborts_witness :
    handle_netread (HostReadResult.err 9) { data := 0, len := 64, ret := 7 }
      = NetreadStep.assertFailed :=
  (netread_error_aborts { data := 0, len := 64, ret := 7 } 9 (by decide)).1

/-! ## Teardown (`uhyve_exit`, `src/tools/uhyve.c:217-248`) -/

/-- Observable host actions performed by `uhyve_exit`, in program order. -/
inductive ExitEvent where
  | sigtermAndJoin (thread : Nat)
  | dumpLog
  | closeVcpu (fd : Int)
  | closeVm (fd : Int)
  | closeKvm (fd : Int)
deriving DecidableEq

/-- The globals read by `uhyve_exit`: the `vcpu_threads` array (`none`
when never allocated; entries are pthread handles), the calling thread's
own handle, whether `klog` was set, the `HERMIT_VERBOSE` environment
variable, and the three file descriptors. -/
structure ExitState where
  threads : Option (List Nat)
  self : Nat
  klogSet : Bool
  verbose : Option String
  vcpufd : Int
  vmfd : Int
  kvm : Int

/-- The loop over `vcpu_threads`: every thread other than `pthread_self()`
is sent `SIGTERM` and joined. -/
def exitJoinPart (st : ExitState) : List ExitEvent :=
  match st.threads with
  | some ts =>
    ts.filterMap (fun t =>
      if t ≠ st.self then some (ExitEvent.sigtermAndJoin t) else none)
  | none => []

/-- Whether the `HERMIT_VERBOSE` value asks for the log dump (set and not
equal to `"0"`). -/
def verboseWantsLog : Option String → Bool
  | some s => decide (s ≠ "0")
  | none => false

/-- The optional kernel-log dump (`klog` set and `HERMIT_VERBOSE` set and
not equal to `"0"`). -/
def exitLogPart (st : ExitState) : List ExitEvent :=
  if st.klogSet && verboseWantsLog st.verbose then [ExitEvent.dumpLog] else []

/-- The three guarded `close` calls at the end of `uhyve_exit`, in source
order: `vcpufd`, then `vmfd`, then `kvm`, each skipped when already `-1`. -/
def exitClosePart (st : ExitState) : List ExitEvent :=
  (if st.vcpufd ≠ -1 then [ExitEvent.closeVcpu st.vcpufd] else [])
    ++ (if st.vmfd ≠ -1 then [ExitEvent.closeVm st.vmfd] else [])
    ++ (if st.kvm ≠ -1 then [ExitEvent.closeKvm st.kvm] else [])

/-- The event trace of `uhyve_exit`. -/
def uhyve_exit_trace (st : ExitState) : List ExitEvent :=
  exitJoinPart st ++ exitLogPart st ++ exitClosePart st

/-- The close events among the trace. -/
def isCloseEvent : ExitEvent → Bool
  | ExitEvent.closeVcpu _ => true
  | ExitEvent.closeVm _ => true
  | ExitEvent.closeKvm _ => true
  | _ => false

/-- A concrete exit state: two vCPU threads (handles 100, 101; the exiting
thread is 100), all three fds open. -/
def exitStateTwoCores : ExitState :=
  { threads := some [100, 101], self := 100, klogSet := true,
    verbose := none, vcpufd := 5, vmfd := 4, kvm := 3 }

/-- **C8 (counterexample).** The claim says the teardown closes the VM fd,
then the vCPU fd, then the KVM fd.  In the source the order of the three
`close` calls is `vcpufd`, `vmfd`, `kvm`: on a state with all three fds
open the close events are vCPU first, VM second — not the claimed order. -/
theorem uhyve_exit_close_order_counterexample :
    (uhyve_exit_trace exitStateTwoCores).filter isCloseEvent
        = [ExitEvent.closeVcpu 5, ExitEvent.closeVm 4, ExitEvent.closeKvm 3]
      ∧ (uhyve_exit_trace exitStateTwoCores).filter isCloseEvent
        ≠ [ExitEvent.closeVm 4, ExitEvent.closeVcpu 5, ExitEvent.closeKvm 3] :=
  ⟨by decide, by decide⟩

lemma exitJoinPart_events (st : ExitState) (e : ExitEvent)
    (he : e ∈ exitJoinPart st) : ∃ t, e = ExitEvent.sigtermAndJoin t := by
  unfold exitJoinPart at he
  cases h : st.threads with
  | none => rw [h] at he; cases he
  | some ts =>
    rw [h] at he
    obtain ⟨t, _, ht⟩ := List.mem_filterMap.mp he
    by_cases hts : t ≠ st.self
    · rw [if_pos hts] at ht
      exact ⟨t, (Option.some_injective _ ht).symm⟩
    · rw [if_neg hts] at ht
      cases ht

lemma exit_preClose_not_close (st : ExitState) (e : ExitEvent)
    (he : e ∈ exitJoinPart st ++ exitLogPart st) : isCloseEvent e = false := by
  rcases List.mem_append.mp he with h | h
  · obtain ⟨t, rfl⟩ := exitJoinPart_events st e h
    rfl
  · rw [exitLogPart] at h
    split at h
    · rcases List.mem_singleton.mp h with rfl
      rfl
    · cases h

lemma dropWhile_append_of_all {α : Type} (p : α → Bool) (A B : List α)
    (h : ∀ a ∈ A, p a = true) :
    (A ++ B).dropWhile p = B.dropWhile p := by
  induction A with
  | nil => simp
  | cons a A ih =>
    rw [List.cons_append, List.dropWhile_cons, if_pos (h a (by simp))]
    exact ih (fun x hx => h x (by simp [hx]))

/-- **C8 (amended).** The exit-time teardown closes the vCPU fd, then the
VM fd, then the KVM fd, in that order, after signalling every peer vCPU
thread with SIGTERM and joining it: when all three fds are open, the close
events of the trace are exactly `[closeVcpu, closeVm, closeKvm]`, every
peer thread receives its SIGTERM-and-join event, and no SIGTERM-and-join
event occurs at or after the first close event. -/
theorem uhyve_exit_order_amended (st : ExitState)
    (hvcpu : st.vcpufd ≠ -1) (hvm : st.vmfd ≠ -1) (hkvm : st.kvm ≠ -1) :
    (uhyve_exit_trace st).filter isCloseEvent
        = [ExitEvent.closeVcpu st.vcpufd, ExitEvent.closeVm st.vmfd,
            ExitEvent.closeKvm st.kvm]
      ∧ (∀ ts, st.threads = some ts → ∀ t ∈ ts, t ≠ st.self →
          ExitEvent.sigtermAndJoin t ∈ uhyve_exit_trace st)
      ∧ (∀ t, ExitEvent.sigtermAndJoin t ∉
          (uhyve_exit_trace st).dropWhile (fun e => !isCloseEvent e)) := by
  have hclose : exitClosePart st
      = [ExitEvent.closeVcpu st.vcpufd, ExitEvent.closeVm st.vmfd,
          ExitEvent.closeKvm st.kvm] := by
    rw [exitClosePart, if_pos hvcpu, if_pos hvm, if_pos hkvm]
    rfl
  have htrace : uhyve_exit_trace st
      = (exitJoinPart st ++ exitLogPart st) ++ exitClosePart st := by
    rw [uhyve_exit_trace, List.append_assoc]
  refine ⟨?_, ?_, ?_⟩
  · rw [htrace, List.filter_append, hclose]
    have hA : (exitJoinPart st ++ exitLogPart st).filter isCloseEvent = [] := by
      rw [List.filter_eq_nil_iff]
      intro e he
      rw [exit_preClose_not_close st e he]
      decide
    rw [hA]
    rfl
  · intro ts hts t htm hne
    rw [uhyve_exit_trace]
    apply List.mem_append_left
    apply List.mem_append_left
    rw [exitJoinPart, hts]
    exact List.mem_filterMap.mpr ⟨t, htm, by rw [if_pos hne]⟩
  · intro t
    rw [htrace,
      dropWhile_append_of_all _ _ _
        (fun a ha => by rw [Bool.not_eq_true']; exact exit_preClose_not_close st a ha),
      hclose]
    intro hmem
    rw [List.dropWhile_cons, if_neg (by simp [isCloseEvent])] at hmem
    simp only [List.mem_cons, List.not_mem_nil, or_false] at hmem
    rcases hmem with h | h | h <;> exact ExitEvent.noConfusion h

/-- Witness for C8 on the concrete two-core state (all fds open). -/
theorem uhyve_exit_order_amended_witness :
    (uhyve_exit_trace exitStateTwoCores).filter isCloseEvent
      = [ExitEvent.closeVcpu 5, ExitEvent.closeVm 4, ExitEvent.closeKvm 3] :=
  (uhyve_exit_order_amended exitStateTwoCores (by decide) (by decide)
    (by decide)).1

/-! ## Guest memory and the segment loop of `load_kernel`
(`src/tools/uhyve.c:369-403`) -/

/-- Guest memory as a byte map (guest physical address to byte value). -/
def Mem : Type := Nat → Nat

/-- `memset(mem + a, 0x00, n)`. -/
def zeroRange (m : Mem) (a n : Nat) : Mem :=
  fun x => if a ≤ x ∧ x < a + n then 0 else m x

/-- Effect on memory of `pread_in_full(fd, mem + dst, n, off)`
(`src/tools/uhyve.c:291-319`): the file bytes at `[off, off + n)` are
copied to `[dst, dst + n)`; positions past the end of the file are left
as they were (`pread` returns 0 there, and `pread_in_full` then stops
with a short count, which is `≥ 0` and so not an error for the caller). -/
def preadCopy (m : Mem) (file : List Nat) (dst off n : Nat) : Mem :=
  fun x =>
    if dst ≤ x ∧ x < dst + n ∧ off + (x - dst) < file.length
    then file.getD (off + (x - dst)) 0 else m x

/-- Little-endian store of a `uint64_t` value. -/
def writeU64le (m : Mem) (a v : Nat) : Mem :=
  fun x =>
    if a ≤ x ∧ x < a + 8 then v % 2 ^ 64 / 2 ^ (8 * (x - a)) % 2 ^ 8 else m x

/-- Little-endian store of a `uint32_t` value. -/
def writeU32le (m : Mem) (a v : Nat) : Mem :=
  fun x =>
    if a ≤ x ∧ x < a + 4 then v % 2 ^ 32 / 2 ^ (8 * (x - a)) % 2 ^ 8 else m x

/-- Little-endian load of a `uint64_t`. -/
def readU64le (m : Mem) (a : Nat) : Nat :=
  m a + m (a + 1) * 2 ^ 8 + m (a + 2) * 2 ^ 16 + m (a + 3) * 2 ^ 24
    + m (a + 4) * 2 ^ 32 + m (a + 5) * 2 ^ 40 + m (a + 6) * 2 ^ 48
    + m (a + 7) * 2 ^ 56

/-- Little-endian load of a `uint32_t`. -/
def readU32le (m : Mem) (a : Nat) : Nat :=
  m a + m (a + 1) * 2 ^ 8 + m (a + 2) * 2 ^ 16 + m (a + 3) * 2 ^ 24

lemma writeU64le_out (m : Mem) (a v x : Nat) (h : x < a ∨ a + 8 ≤ x) :
    writeU64le m a v x = m x := by
  rw [writeU64le, if_neg (by omega)]

lemma writeU32le_out (m : Mem) (a v x : Nat) (h : x < a ∨ a + 4 ≤ x) :
    writeU32le m a v x = m x := by
  rw [writeU32le, if_neg (by omega)]

lemma zeroRange_out (m : Mem) (a n x : Nat) (h : x < a ∨ a + n ≤ x) :
    zeroRange m a n x = m x := by
  rw [zeroRange, if_neg (by omega)]

lemma preadCopy_out (m : Mem) (file : List Nat) (dst off n x : Nat)
    (h : x < dst ∨ dst + n ≤ x) : preadCopy m file dst off n x = m x := by
  rw [preadCopy, if_neg (by omega)]

lemma writeU64le_byte (m : Mem) (a v k : Nat) (hk : k < 8) :
    writeU64le m a v (a + k) = v % 2 ^ 64 / 2 ^ (8 * k) % 2 ^ 8 := by
  rw [writeU64le, if_pos (by omega)]
  congr 3
  omega

lemma writeU32le_byte (m : Mem) (a v k : Nat) (hk : k < 4) :
    writeU32le m a v (a + k) = v % 2 ^ 32 / 2 ^ (8 * k) % 2 ^ 8 := by
  rw [writeU32le, if_pos (by omega)]
  congr 3
  omega

lemma readU64le_congr (m1 m2 : Mem) (a : Nat)
    (h : ∀ k, k < 8 → m1 (a + k) = m2 (a + k)) :
    readU64le m1 a = readU64le m2 a := by
  have h0 := h 0 (by omega)
  rw [Nat.add_zero] at h0
  rw [readU64le, readU64le, h0, h 1 (by omega), h 2 (by omega), h 3 (by omega),
    h 4 (by omega), h 5 (by omega), h 6 (by omega), h 7 (by omega)]

lemma readU32le_congr (m1 m2 : Mem) (a : Nat)
    (h : ∀ k, k < 4 → m1 (a + k) = m2 (a + k)) :
    readU32le m1 a = readU32le m2 a := by
  have h0 := h 0 (by omega)
  rw [Nat.add_zero] at h0
  rw [readU32le, readU32le, h0, h 1 (by omega), h 2 (by omega), h 3 (by omega)]

lemma readU64le_writeU64le (m : Mem) (a v : Nat) :
    readU64le (writeU64le m a v) a = v % 2 ^ 64 := by
  have h0 := writeU64le_byte m a v 0 (by omega)
  rw [Nat.add_zero] at h0
  rw [readU64le, h0, writeU64le_byte m a v 1 (by omega),
    writeU64le_byte m a v 2 (by omega), writeU64le_byte m a v 3 (by omega),
    writeU64le_byte m a v 4 (by omega), writeU64le_byte m a v 5 (by omega),
    writeU64le_byte m a v 6 (by omega), writeU64le_byte m a v 7 (by omega)]
  have hlt : v % 2 ^ 64 < 2 ^ 64 := Nat.mod_lt _ (by norm_num)
  generalize v % 2 ^ 64 = w at hlt ⊢
  norm_num
  omega

lemma readU32le_writeU32le (m : Mem) (a v : Nat) :
    readU32le (writeU32le m a v) a = v % 2 ^ 32 := by
  have h0 := writeU32le_byte m a v 0 (by omega)
  rw [Nat.add_zero] at h0
  rw [readU32le, h0, writeU32le_byte m a v 1 (by omega),
    writeU32le_byte m a v 2 (by omega), writeU32le_byte m a v 3 (by omega)]
  have hlt : v % 2 ^ 32 < 2 ^ 32 := Nat.mod_lt _ (by norm_num)
  generalize v % 2 ^ 32 = w at hlt ⊢
  norm_num
  omega

lemma readU64le_writeU64le_of_disjoint (m : Mem) (b v a : Nat)
    (h : b + 8 ≤ a ∨ a + 8 ≤ b) :
    readU64le (writeU64le m b v) a = readU64le m a :=
  readU64le_congr _ _ _ (fun k hk => writeU64le_out m b v (a + k) (by omega))

lemma readU64le_writeU32le_of_disjoint (m : Mem) (b v a : Nat)
    (h : b + 4 ≤ a ∨ a + 8 ≤ b) :
    readU64le (writeU32le m b v) a = readU64le m a :=
  readU64le_congr _ _ _ (fun k hk => writeU32le_out m b v (a + k) (by omega))

lemma readU32le_writeU64le_of_disjoint (m : Mem) (b v a : Nat)
    (h : b + 8 ≤ a ∨ a + 4 ≤ b) :
    readU32le (writeU64le m b v) a = readU32le m a :=
  readU32le_congr _ _ _ (fun k hk => writeU64le_out m b v (a + k) (by omega))

lemma readU32le_writeU32le_of_disjoint (m : Mem) (b v a : Nat)
    (h : b + 4 ≤ a ∨ a + 4 ≤ b) :
    readU32le (writeU32le m b v) a = readU32le m a :=
  readU32le_congr _ _ _ (fun k hk => writeU32le_out m b v (a + k) (by omega))

/-- The fields of `Elf64_Phdr` used by the segment loop. -/
structure Elf64Phdr where
  p_type : Nat
  p_offset : Nat
  p_paddr : Nat
  p_filesz : Nat
  p_memsz : Nat
deriving DecidableEq

def PT_LOAD : Nat := 1

/-- The `size_t` length of the zero-filled tail, `memsz - filesz` in
64-bit unsigned arithmetic (fields are `uint64_t` values). -/
def zlen (ph : Elf64Phdr) : Nat :=
  (2 ^ 64 + ph.p_memsz - ph.p_filesz) % 2 ^ 64

/-- The boot-info stores of the `first_load` branch
(`src/tools/uhyve.c:394-401`), in source order. -/
def bootInfoWrites (m : Mem) (paddr filesz guest_size cpufreq : Nat) : Mem :=
  let m1 := writeU64le m (paddr + 0x08) paddr
  let m2 := writeU64le m1 (paddr + 0x10) guest_size
  let m3 := writeU32le m2 (paddr + 0x18) cpufreq
  let m4 := writeU32le m3 (paddr + 0x24) 1
  let m5 := writeU32le m4 (paddr + 0x30) 0
  let m6 := writeU64le m5 (paddr + 0x38) filesz
  let m7 := writeU32le m6 (paddr + 0x60) 1
  writeU32le m7 (paddr + 0x94) 1

/-- The byte addresses covered by the eight boot-info stores, relative to
the first loaded segment's `p_paddr`. -/
def bootFieldAddr (paddr a : Nat) : Prop :=
  (paddr + 0x08 ≤ a ∧ a < paddr + 0x10) ∨ (paddr + 0x10 ≤ a ∧ a < paddr + 0x18)
    ∨ (paddr + 0x18 ≤ a ∧ a < paddr + 0x1c) ∨ (paddr + 0x24 ≤ a ∧ a < paddr + 0x28)
    ∨ (paddr + 0x30 ≤ a ∧ a < paddr + 0x34) ∨ (paddr + 0x38 ≤ a ∧ a < paddr + 0x40)
    ∨ (paddr + 0x60 ≤ a ∧ a < paddr + 0x64) ∨ (paddr + 0x94 ≤ a ∧ a < paddr + 0x98)

instance (paddr a : Nat) : Decidable (bootFieldAddr paddr a) := by
  rw [bootFieldAddr]
  infer_instance

/-- One iteration of the program-header loop of `load_kernel`
(`src/tools/uhyve.c:369-403`).  Returns the new memory and `first_load`
flag, or `none` when `pread_in_full` fails with `E2BIG` (count above
`SSIZE_MAX`), which makes `load_kernel` jump to `out`. -/
def processSegment (file : List Nat) (guest_size cpufreq : Nat)
    (ph : Elf64Phdr) (m : Mem) (first : Bool) : Option (Mem × Bool) :=
  if ph.p_type ≠ PT_LOAD then some (m, first)
  else if SSIZE_MAX < ph.p_filesz then none
  else
    let m1 := preadCopy m file ph.p_paddr ph.p_offset ph.p_filesz
    let m2 := zeroRange m1 (ph.p_paddr + ph.p_filesz) (zlen ph)
    if first then
      some (bootInfoWrites m2 ph.p_paddr ph.p_filesz guest_size cpufreq, false)
    else some (m2, false)

/-- The loop over all program headers.  On a `pread` failure the remaining
headers are skipped (the C jumps to `out`; `load_kernel` still returns 0,
leaving memory as staged so far). -/
def loadSegments (file : List Nat) (gs freq : Nat) :
    List Elf64Phdr → Mem → Bool → Mem
  | [], m, _ => m
  | ph :: rest, m, first =>
    match processSegment file gs freq ph m first with
    | none => m
    | some (m1, first1) => loadSegments file gs freq rest m1 first1

/-- Over-approximation of the addresses a single segment iteration can
write: the copy range, the zero-fill range, and (for the first load) the
boot-info fields. -/
def segTouched (ph : Elf64Phdr) (a : Nat) : Prop :=
  (ph.p_paddr ≤ a ∧ a < ph.p_paddr + ph.p_filesz)
    ∨ (ph.p_paddr + ph.p_filesz ≤ a ∧ a < ph.p_paddr + ph.p_filesz + zlen ph)
    ∨ bootFieldAddr ph.p_paddr a

/-- Well-formedness of one program header, as hypothesized by the amended
claims: the tail is not negative, the fields fit `uint64_t`, the file
size is below `SSIZE_MAX`, and the segment covers the boot-info area. -/
def phWellFormed (ph : Elf64Phdr) : Prop :=
  ph.p_filesz ≤ ph.p_memsz ∧ ph.p_memsz < 2 ^ 64
    ∧ ph.p_filesz ≤ SSIZE_MAX ∧ 0x98 ≤ ph.p_memsz

instance (ph : Elf64Phdr) : Decidable (phWellFormed ph) := by
  rw [phWellFormed]
  infer_instance

/-- Non-overlap of the `[p_paddr, p_paddr + p_memsz)` ranges of two
PT_LOAD segments. -/
def loadDisjoint (q1 q2 : Elf64Phdr) : Prop :=
  q1.p_type = PT_LOAD → q2.p_type = PT_LOAD →
    (q1.p_paddr + q1.p_memsz ≤ q2.p_paddr ∨ q2.p_paddr + q2.p_memsz ≤ q1.p_paddr)

instance (q1 q2 : Elf64Phdr) : Decidable (loadDisjoint q1 q2) := by
  rw [loadDisjoint]
  infer_instance

/-- The first PT_LOAD entry of the header list (the one whose processing
sees `first_load` still set). -/
def firstLoadOf (l : List Elf64Phdr) : Option Elf64Phdr :=
  l.find? (fun q => q.p_type == PT_LOAD)

lemma zlen_eq (ph : Elf64Phdr) (h1 : ph.p_filesz ≤ ph.p_memsz)
    (h2 : ph.p_memsz < 2 ^ 64) : zlen ph = ph.p_memsz - ph.p_filesz := by
  rw [zlen]
  omega

lemma bootFieldAddr_sub (paddr a : Nat) (h : bootFieldAddr paddr a) :
    paddr ≤ a ∧ a < paddr + 0x98 := by
  rw [bootFieldAddr] at h
  omega

lemma segTouched_sub_range (ph : Elf64Phdr) (a : Nat) (hwf : phWellFormed ph)
    (h : segTouched ph a) : ph.p_paddr ≤ a ∧ a < ph.p_paddr + ph.p_memsz := by
  obtain ⟨h1, h2, _, h4⟩ := hwf
  rw [segTouched, zlen_eq ph h1 h2] at h
  rcases h with h | h | h
  · omega
  · omega
  · have := bootFieldAddr_sub _ _ h
    omega

lemma bootInfoWrites_eq_of_not_field (m : Mem) (p fs gs fr a : Nat)
    (h : ¬ bootFieldAddr p a) : bootInfoWrites m p fs gs fr a = m a := by
  rw [bootFieldAddr] at h
  simp only [bootInfoWrites, writeU64le, writeU32le]
  split_ifs <;> first | rfl | omega

lemma processSegment_skip (file : List Nat) (gs fr : Nat) (ph : Elf64Phdr)
    (m : Mem) (first : Bool) (h : ph.p_type ≠ PT_LOAD) :
    processSegment file gs fr ph m first = some (m, first) := by
  rw [processSegment, if_pos h]

lemma processSegment_load (file : List Nat) (gs fr : Nat) (ph : Elf64Phdr)
    (m : Mem) (first : Bool) (htype : ph.p_type = PT_LOAD)
    (hsz : ph.p_filesz ≤ SSIZE_MAX) :
    processSegment file gs fr ph m first
      = some (if first then
            bootInfoWrites
              (zeroRange (preadCopy m file ph.p_paddr ph.p_offset ph.p_filesz)
                (ph.p_paddr + ph.p_filesz) (zlen ph))
              ph.p_paddr ph.p_filesz gs fr
          else
            zeroRange (preadCopy m file ph.p_paddr ph.p_offset ph.p_filesz)
              (ph.p_paddr + ph.p_filesz) (zlen ph), false) := by
  rw [processSegment, if_neg (by simp [htype]), if_neg (by omega)]
  by_cases hf : first <;> simp [hf]

lemma loadSegments_cons_none (file : List Nat) (gs fr : Nat) (ph : Elf64Phdr)
    (rest : List Elf64Phdr) (m : Mem) (first : Bool)
    (hp : processSegment file gs fr ph m first = none) :
    loadSegments file gs fr (ph :: rest) m first = m := by
  rw [loadSegments, hp]

lemma loadSegments_cons_some (file : List Nat) (gs fr : Nat) (ph : Elf64Phdr)
    (rest : List Elf64Phdr) (m m1 : Mem) (first first1 : Bool)
    (hp : processSegment file gs fr ph m first = some (m1, first1)) :
    loadSegments file gs fr (ph :: rest) m first
      = loadSegments file gs fr rest m1 first1 := by
  rw [loadSegments, hp]

/-- The memory staged by one PT_LOAD iteration (the value inside
`processSegment`'s result for a load). -/
def stagedSegment (file : List Nat) (gs fr : Nat) (ph : Elf64Phdr)
    (m : Mem) (first : Bool) : Mem :=
  if first then
    bootInfoWrites
      (zeroRange (preadCopy m file ph.p_paddr ph.p_offset ph.p_filesz)
        (ph.p_paddr + ph.p_filesz) (zlen ph))
      ph.p_paddr ph.p_filesz gs fr
  else
    zeroRange (preadCopy m file ph.p_paddr ph.p_offset ph.p_filesz)
      (ph.p_paddr + ph.p_filesz) (zlen ph)

lemma processSegment_load' (file : List Nat) (gs fr : Nat) (ph : Elf64Phdr)
    (m : Mem) (first : Bool) (htype : ph.p_type = PT_LOAD)
    (hsz : ph.p_filesz ≤ SSIZE_MAX) :
    processSegment file gs fr ph m first
      = some (stagedSegment file gs fr ph m first, false) := by
  rw [processSegment_load file gs fr ph m first htype hsz, stagedSegment]

lemma stagedSegment_untouched (file : List Nat) (gs fr : Nat)
    (ph : Elf64Phdr) (m : Mem) (first : Bool) (a : Nat)
    (hns : ¬ segTouched ph a) :
    stagedSegment file gs fr ph m first a = m a := by
  rw [segTouched] at hns
  have h1 : ¬ (ph.p_paddr ≤ a ∧ a < ph.p_paddr + ph.p_filesz) :=
    fun hc => hns (Or.inl hc)
  have h2 : ¬ (ph.p_paddr + ph.p_filesz ≤ a
      ∧ a < ph.p_paddr + ph.p_filesz + zlen ph) :=
    fun hc => hns (Or.inr (Or.inl hc))
  have h3 : ¬ bootFieldAddr ph.p_paddr a :=
    fun hc => hns (Or.inr (Or.inr hc))
  have hz : zeroRange (preadCopy m file ph.p_paddr ph.p_offset ph.p_filesz)
      (ph.p_paddr + ph.p_filesz) (zlen ph) a = m a := by
    rw [zeroRange_out _ _ _ _ (by omega), preadCopy_out _ _ _ _ _ _ (by omega)]
  rw [stagedSegment]
  by_cases hf : first
  · rw [if_pos hf, bootInfoWrites_eq_of_not_field _ _ _ _ _ _ h3, hz]
  · rw [if_neg hf, hz]

lemma loadSegments_frame (file : List Nat) (gs fr : Nat) :
    ∀ (l : List Elf64Phdr) (m : Mem) (first : Bool) (a : Nat),
      (∀ ph ∈ l, ph.p_type = PT_LOAD → ¬ segTouched ph a) →
      loadSegments file gs fr l m first a = m a := by
  intro l
  induction l with
  | nil => intro m first a _; rfl
  | cons ph rest ih =>
    intro m first a h
    by_cases htype : ph.p_type = PT_LOAD
    · by_cases hsz : SSIZE_MAX < ph.p_filesz
      · rw [loadSegments_cons_none file gs fr ph rest m first
          (by rw [processSegment, if_neg (by simp [htype]), if_pos hsz])]
      · rw [loadSegments_cons_some file gs fr ph rest m
            (stagedSegment file gs fr ph m first) first false
            (processSegment_load' file gs fr ph m first htype (by omega)),
          ih _ false a (fun q hq hqt => h q (by simp [hq]) hqt),
          stagedSegment_untouched file gs fr ph m first a
            (h ph (by simp) htype)]
    · rw [loadSegments_cons_some file gs fr ph rest m m first first
          (processSegment_skip file gs fr ph m first htype),
        ih m first a (fun q hq hqt => h q (by simp [hq]) hqt)]

lemma stagedSegment_copy_val (file : List Nat) (gs fr : Nat) (ph : Elf64Phdr)
    (m : Mem) (first : Bool) (a : Nat)
    (h1 : ph.p_paddr ≤ a) (h2 : a < ph.p_paddr + ph.p_filesz)
    (hin : ph.p_offset + (a - ph.p_paddr) < file.length)
    (hboot : first = true → ¬ bootFieldAddr ph.p_paddr a) :
    stagedSegment file gs fr ph m first a
      = file.getD (ph.p_offset + (a - ph.p_paddr)) 0 := by
  have hcopy : preadCopy m file ph.p_paddr ph.p_offset ph.p_filesz a
      = file.getD (ph.p_offset + (a - ph.p_paddr)) 0 := by
    rw [preadCopy, if_pos ⟨h1, h2, hin⟩]
  have hz : zeroRange (preadCopy m file ph.p_paddr ph.p_offset ph.p_filesz)
      (ph.p_paddr + ph.p_filesz) (zlen ph) a
      = preadCopy m file ph.p_paddr ph.p_offset ph.p_filesz a :=
    zeroRange_out _ _ _ _ (by omega)
  rw [stagedSegment]
  by_cases hf : first
  · rw [if_pos hf, bootInfoWrites_eq_of_not_field _ _ _ _ _ _ (hboot hf), hz,
      hcopy]
  · rw [if_neg hf, hz, hcopy]

lemma stagedSegment_zero_val (file : List Nat) (gs fr : Nat) (ph : Elf64Phdr)
    (m : Mem) (first : Bool) (a : Nat)
    (hfm : ph.p_filesz ≤ ph.p_memsz) (hm64 : ph.p_memsz < 2 ^ 64)
    (h1 : ph.p_paddr + ph.p_filesz ≤ a) (h2 : a < ph.p_paddr + ph.p_memsz)
    (hboot : first = true → ¬ bootFieldAddr ph.p_paddr a) :
    stagedSegment file gs fr ph m first a = 0 := by
  have hz : zeroRange (preadCopy m file ph.p_paddr ph.p_offset ph.p_filesz)
      (ph.p_paddr + ph.p_filesz) (zlen ph) a = 0 := by
    rw [zeroRange, if_pos (by rw [zlen_eq ph hfm hm64]; omega)]
  rw [stagedSegment]
  by_cases hf : first
  · rw [if_pos hf, bootInfoWrites_eq_of_not_field _ _ _ _ _ _ (hboot hf), hz]
  · rw [if_neg hf, hz]

lemma firstLoadOf_cons_load (ph : Elf64Phdr) (l : List Elf64Phdr)
    (h : ph.p_type = PT_LOAD) : firstLoadOf (ph :: l) = some ph := by
  rw [firstLoadOf, List.find?_cons_of_pos]
  simp [h]

lemma firstLoadOf_cons_skip (ph : Elf64Phdr) (l : List Elf64Phdr)
    (h : ph.p_type ≠ PT_LOAD) : firstLoadOf (ph :: l) = firstLoadOf l := by
  rw [firstLoadOf, firstLoadOf, List.find?_cons_of_neg]
  simp [h]

/-- Value of the final guest memory inside a PT_LOAD segment's range,
established when the loop reaches that segment and preserved by all later
iterations (their write sets are disjoint from it). -/
lemma loadSegments_load_val (file : List Nat) (gs fr : Nat) :
    ∀ (pre post : List Elf64Phdr) (ph : Elf64Phdr) (m : Mem) (first : Bool)
      (a : Nat),
      ph.p_type = PT_LOAD →
      (∀ q ∈ pre ++ ph :: post, q.p_type = PT_LOAD → phWellFormed q) →
      List.Pairwise loadDisjoint (pre ++ ph :: post) →
      ph.p_offset + ph.p_filesz ≤ file.length →
      ph.p_paddr ≤ a → a < ph.p_paddr + ph.p_memsz →
      (first = true → ∀ ph0, firstLoadOf (pre ++ ph :: post) = some ph0 →
          ¬ bootFieldAddr ph0.p_paddr a) →
      loadSegments file gs fr (pre ++ ph :: post) m first a
        = if a < ph.p_paddr + ph.p_filesz
          then file.getD (ph.p_offset + (a - ph.p_paddr)) 0 else 0 := by
  intro pre
  induction pre with
  | nil =>
    intro post ph m first a htype hwf hdisj hin ha1 ha2 hexcl
    simp only [List.nil_append] at hwf hdisj hexcl ⊢
    obtain ⟨hfm, hm64, hss, hb98⟩ := hwf ph (by simp) htype
    rw [loadSegments_cons_some file gs fr ph post m
      (stagedSegment file gs fr ph m first) first false
      (processSegment_load' file gs fr ph m first htype hss)]
    have hfr : ∀ q ∈ post, q.p_type = PT_LOAD → ¬ segTouched q a := by
      intro q hq hqt hst
      have hqwf := hwf q (by simp [hq]) hqt
      have hsub := segTouched_sub_range q a hqwf hst
      have hdj := (List.pairwise_cons.mp hdisj).1 q hq htype hqt
      omega
    rw [loadSegments_frame file gs fr post _ false a hfr]
    have hboot : first = true → ¬ bootFieldAddr ph.p_paddr a := fun hf =>
      hexcl hf ph (firstLoadOf_cons_load ph post htype)
    by_cases hc : a < ph.p_paddr + ph.p_filesz
    · rw [if_pos hc,
        stagedSegment_copy_val file gs fr ph m first a ha1 hc (by omega) hboot]
    · rw [if_neg hc,
        stagedSegment_zero_val file gs fr ph m first a hfm hm64 (by omega)
          ha2 hboot]
  | cons q pre ih =>
    intro post ph m first a htype hwf hdisj hin ha1 ha2 hexcl
    rw [List.cons_append] at hwf hdisj hexcl ⊢
    by_cases hqt : q.p_type = PT_LOAD
    · obtain ⟨-, -, hqss, -⟩ := hwf q (by simp) hqt
      rw [loadSegments_cons_some file gs fr q (pre ++ ph :: post) m
        (stagedSegment file gs fr q m first) first false
        (processSegment_load' file gs fr q m first hqt hqss)]
      exact ih post ph _ false a htype (fun r hr => hwf r (by simp [hr]))
        (List.pairwise_cons.mp hdisj).2 hin ha1 ha2
        (fun hf => absurd hf (by simp))
    · rw [loadSegments_cons_some file gs fr q (pre ++ ph :: post) m m first
        first (processSegment_skip file gs fr q m first hqt)]
      refine ih post ph m first a htype (fun r hr => hwf r (by simp [hr]))
        (List.pairwise_cons.mp hdisj).2 hin ha1 ha2 ?_
      intro hf ph0 h0
      refine hexcl hf ph0 ?_
      rw [firstLoadOf_cons_skip q _ hqt]
      exact h0

/-- A file of 16 bytes `0xAB` and a single PT_LOAD header loading all of
it to `p_paddr = 0`. -/
def counterFile : List Nat := List.replicate 16 0xAB

def counterPhdr : Elf64Phdr :=
  { p_type := 1, p_offset := 0, p_paddr := 0, p_filesz := 16, p_memsz := 16 }

/-- All-zero initial guest memory (fresh anonymous `mmap`). -/
def zeroMem : Mem := fun _ => 0

/-- **C4 (counterexample).** The claim says that for every PT_LOAD header
the loaded guest bytes at `[p_paddr, p_paddr + p_filesz)` equal the file
bytes.  On the first PT_LOAD the loader then overwrites the fixed-offset
boot-info fields: with a single PT_LOAD of 16 bytes `0xAB` at `p_paddr =
0`, the byte at address `8` (inside the copied range) ends up `0` — the
low byte of the stored `p_paddr` — while the file byte there is `0xAB`. -/
theorem load_segments_bytes_counterexample :
    counterPhdr.p_type = PT_LOAD
      ∧ counterPhdr.p_paddr ≤ 8
      ∧ 8 < counterPhdr.p_paddr + counterPhdr.p_filesz
      ∧ counterPhdr.p_offset + counterPhdr.p_filesz ≤ counterFile.length
      ∧ loadSegments counterFile 0x20000000 2100 [counterPhdr] zeroMem true 8
          = 0
      ∧ counterFile.getD (counterPhdr.p_offset + (8 - counterPhdr.p_paddr)) 0
          = 0xAB :=
  ⟨rfl, by decide, by decide, by decide, by decide, by decide⟩

/-- **C4 (amended).** For every PT_LOAD program header of an accepted
image — provided the PT_LOAD `[p_paddr, p_paddr + p_memsz)` ranges are
pairwise disjoint, each load satisfies `p_filesz ≤ p_memsz < 2^64`,
`p_filesz ≤ SSIZE_MAX` and `p_memsz ≥ 0x98` (it covers the boot-info
area), and the file covers `[p_offset, p_offset + p_filesz)` — after
`load_kernel`'s loop the guest memory at `[p_paddr, p_paddr + p_filesz)`
equals the file bytes at `[p_offset, p_offset + p_filesz)` and the bytes
at `[p_paddr + p_filesz, p_paddr + p_memsz)` are zero, *except* at the
boot-info field addresses of the first PT_LOAD segment, which hold the
boot-info values instead. -/
theorem load_segments_bytes_amended (file : List Nat) (gs fr : Nat)
    (pre post : List Elf64Phdr) (ph : Elf64Phdr) (m : Mem) (a : Nat)
    (htype : ph.p_type = PT_LOAD)
    (hwf : ∀ q ∈ pre ++ ph :: post, q.p_type = PT_LOAD → phWellFormed q)
    (hdisj : List.Pairwise loadDisjoint (pre ++ ph :: post))
    (hin : ph.p_offset + ph.p_filesz ≤ file.length)
    (hexcl : ∀ ph0, firstLoadOf (pre ++ ph :: post) = some ph0 →
        ¬ bootFieldAddr ph0.p_paddr a) :
    (ph.p_paddr ≤ a → a < ph.p_paddr + ph.p_filesz →
      loadSegments file gs fr (pre ++ ph :: post) m true a
        = file.getD (ph.p_offset + (a - ph.p_paddr)) 0)
    ∧ (ph.p_paddr + ph.p_filesz ≤ a → a < ph.p_paddr + ph.p_memsz →
      loadSegments file gs fr (pre ++ ph :: post) m true a = 0) := by
  have hfm : ph.p_filesz ≤ ph.p_memsz := (hwf ph (by simp) htype).1
  constructor
  · intro h1 h2
    rw [loadSegments_load_val file gs fr pre post ph m true a htype hwf hdisj
      hin h1 (by omega) (fun _ => hexcl), if_pos h2]
  · intro h1 h2
    rw [loadSegments_load_val file gs fr pre post ph m true a htype hwf hdisj
      hin (by omega) h2 (fun _ => hexcl), if_neg (by omega)]

/-- A 16-byte file of `0xCD` bytes and one well-formed PT_LOAD header at
`p_paddr = 0x200000`, for the C4 witness. -/
def witnessFile : List Nat := List.replicate 16 0xCD

def witnessPhdr : Elf64Phdr :=
  { p_type := 1, p_offset := 0, p_paddr := 0x200000, p_filesz := 16,
    p_memsz := 0x100 }

/-- Witness for C4: the byte at the segment base (not a boot-info field)
equals the file byte `0xCD`. -/
theorem load_segments_bytes_amended_witness :
    loadSegments witnessFile 0x20000000 2100 [witnessPhdr] zeroMem true
        0x200000
      = witnessFile.getD (witnessPhdr.p_offset + (0x200000 - witnessPhdr.p_paddr)) 0 :=
  (load_segments_bytes_amended witnessFile 0x20000000 2100 [] [] witnessPhdr
    zeroMem 0x200000 rfl (by decide) (by decide) (by decide)
    (by
      intro ph0 h0
      have hfl : firstLoadOf ([] ++ witnessPhdr :: []) = some witnessPhdr := by
        decide
      rw [hfl] at h0
      injection h0 with h0
      subst h0
      decide)).1 (by decide) (by decide)

lemma firstLoadOf_append_nonloads (pre l : List Elf64Phdr)
    (hpre : ∀ q ∈ pre, q.p_type ≠ PT_LOAD) :
    firstLoadOf (pre ++ l) = firstLoadOf l := by
  induction pre with
  | nil => rfl
  | cons q pre ih =>
    rw [List.cons_append, firstLoadOf_cons_skip q _ (hpre q (by simp)),
      ih (fun r hr => hpre r (by simp [hr]))]

lemma loadSegments_append_nonloads (file : List Nat) (gs fr : Nat) :
    ∀ (pre l : List Elf64Phdr) (m : Mem) (first : Bool),
      (∀ q ∈ pre, q.p_type ≠ PT_LOAD) →
      loadSegments file gs fr (pre ++ l) m first
        = loadSegments file gs fr l m first := by
  intro pre
  induction pre with
  | nil => intros; rfl
  | cons q pre ih =>
    intro l m first hpre
    rw [List.cons_append,
      loadSegments_cons_some file gs fr q (pre ++ l) m m first first
        (processSegment_skip file gs fr q m first (hpre q (by simp))),
      ih l m first (fun r hr => hpre r (by simp [hr]))]

/-- The eight boot-info stores yield the eight field values when read back
(each field read after the writes that follow it, all disjoint). -/
lemma bootInfoWrites_fields (m : Mem) (p fs gs fr : Nat) :
    readU64le (bootInfoWrites m p fs gs fr) (p + 0x08) = p % 2 ^ 64
      ∧ readU64le (bootInfoWrites m p fs gs fr) (p + 0x10) = gs % 2 ^ 64
      ∧ readU32le (bootInfoWrites m p fs gs fr) (p + 0x18) = fr % 2 ^ 32
      ∧ readU32le (bootInfoWrites m p fs gs fr) (p + 0x24) = 1
      ∧ readU32le (bootInfoWrites m p fs gs fr) (p + 0x30) = 0
      ∧ readU64le (bootInfoWrites m p fs gs fr) (p + 0x38) = fs % 2 ^ 64
      ∧ readU32le (bootInfoWrites m p fs gs fr) (p + 0x60) = 1
      ∧ readU32le (bootInfoWrites m p fs gs fr) (p + 0x94) = 1 := by
  simp only [bootInfoWrites]
  refine ⟨?_, ?_, ?_, ?_, ?_, ?_, ?_, ?_⟩
  · rw [readU64le_writeU32le_of_disjoint _ _ _ _ (by omega),
      readU64le_writeU32le_of_disjoint _ _ _ _ (by omega),
      readU64le_writeU64le_of_disjoint _ _ _ _ (by omega),
      readU64le_writeU32le_of_disjoint _ _ _ _ (by omega),
      readU64le_writeU32le_of_disjoint _ _ _ _ (by omega),
      readU64le_writeU32le_of_disjoint _ _ _ _ (by omega),
      readU64le_writeU64le_of_disjoint _ _ _ _ (by omega),
      readU64le_writeU64le]
  · rw [readU64le_writeU32le_of_disjoint _ _ _ _ (by omega),
      readU64le_writeU32le_of_disjoint _ _ _ _ (by omega),
      readU64le_writeU64le_of_disjoint _ _ _ _ (by omega),
      readU64le_writeU32le_of_disjoint _ _ _ _ (by omega),
      readU64le_writeU32le_of_disjoint _ _ _ _ (by omega),
      readU64le_writeU32le_of_disjoint _ _ _ _ (by omega),
      readU64le_writeU64le]
  · rw [readU32le_writeU32le_of_disjoint _ _ _ _ (by omega),
      readU32le_writeU32le_of_disjoint _ _ _ _ (by omega),
      readU32le_writeU64le_of_disjoint _ _ _ _ (by omega),
      readU32le_writeU32le_of_disjoint _ _ _ _ (by omega),
      readU32le_writeU32le_of_disjoint _ _ _ _ (by omega),
      readU32le_writeU32le]
  · rw [readU32le_writeU32le_of_disjoint _ _ _ _ (by omega),
      readU32le_writeU32le_of_disjoint _ _ _ _ (by omega),
      readU32le_writeU64le_of_disjoint _ _ _ _ (by omega),
      readU32le_writeU32le_of_disjoint _ _ _ _ (by omega),
      readU32le_writeU32le]
    decide
  · rw [readU32le_writeU32le_of_disjoint _ _ _ _ (by omega),
      readU32le_writeU32le_of_disjoint _ _ _ _ (by omega),
      readU32le_writeU64le_of_disjoint _ _ _ _ (by omega),
      readU32le_writeU32le]
    decide
  · rw [readU64le_writeU32le_of_disjoint _ _ _ _ (by omega),
      readU64le_writeU32le_of_disjoint _ _ _ _ (by omega),
      readU64le_writeU64le]
  · rw [readU32le_writeU32le_of_disjoint _ _ _ _ (by omega),
      readU32le_writeU32le]
    decide
  · rw [readU32le_writeU32le]
    decide

/-- Iterations after the first load never write inside the first load's
boot-info area (their write sets lie in their own disjoint ranges). -/
lemma loadSegments_bootfield_frame (file : List Nat) (gs fr : Nat)
    (post : List Elf64Phdr) (M : Mem) (p memsz : Nat)
    (h98 : 0x98 ≤ memsz)
    (hwf : ∀ q ∈ post, q.p_type = PT_LOAD → phWellFormed q)
    (hdj : ∀ q ∈ post, q.p_type = PT_LOAD →
        (p + memsz ≤ q.p_paddr ∨ q.p_paddr + q.p_memsz ≤ p))
    (x : Nat) (hx1 : p ≤ x) (hx2 : x < p + 0x98) :
    loadSegments file gs fr post M false x = M x := by
  apply loadSegments_frame
  intro q hq hqt hst
  have h1 := segTouched_sub_range q x (hwf q hq hqt) hst
  have h2 := hdj q hq hqt
  omega

/-- **C5.** On the first PT_LOAD segment — and only there: the headers
before it are not PT_LOAD, and the later segments `post` are processed
with `first_load` already cleared, so they perform no boot-info stores —
the loader writes the fixed-offset boot-info fields relative to
`p_paddr`: `+0x08` = `p_paddr`, `+0x10` = `guest_size`, `+0x18` = host
CPU MHz, `+0x24` = 1 (cores online), `+0x30` = 0 (apic id), `+0x38` =
`p_filesz`, `+0x60` = 1 (numa nodes), `+0x94` = 1 (monitor marker);
these values survive the later iterations (whose PT_LOAD ranges are
disjoint from the first segment's). -/
theorem load_first_segment_bootinfo (file : List Nat) (gs fr : Nat)
    (pre post : List Elf64Phdr) (ph : Elf64Phdr) (m : Mem)
    (hpre : ∀ q ∈ pre, q.p_type ≠ PT_LOAD)
    (htype : ph.p_type = PT_LOAD)
    (hwf : ∀ q ∈ pre ++ ph :: post, q.p_type = PT_LOAD → phWellFormed q)
    (hdisj : List.Pairwise loadDisjoint (pre ++ ph :: post)) :
    firstLoadOf (pre ++ ph :: post) = some ph
      ∧ readU64le (loadSegments file gs fr (pre ++ ph :: post) m true)
          (ph.p_paddr + 0x08) = ph.p_paddr % 2 ^ 64
      ∧ readU64le (loadSegments file gs fr (pre ++ ph :: post) m true)
          (ph.p_paddr + 0x10) = gs % 2 ^ 64
      ∧ readU32le (loadSegments file gs fr (pre ++ ph :: post) m true)
          (ph.p_paddr + 0x18) = fr % 2 ^ 32
      ∧ readU32le (loadSegments file gs fr (pre ++ ph :: post) m true)
          (ph.p_paddr + 0x24) = 1
      ∧ readU32le (loadSegments file gs fr (pre ++ ph :: post) m true)
          (ph.p_paddr + 0x30) = 0
      ∧ readU64le (loadSegments file gs fr (pre ++ ph :: post) m true)
          (ph.p_paddr + 0x38) = ph.p_filesz % 2 ^ 64
      ∧ readU32le (loadSegments file gs fr (pre ++ ph :: post) m true)
          (ph.p_paddr + 0x60) = 1
      ∧ readU32le (loadSegments file gs fr (pre ++ ph :: post) m true)
          (ph.p_paddr + 0x94) = 1 := by
  obtain ⟨hfm, hm64, hss, hb98⟩ := hwf ph (by simp) htype
  have hfl : firstLoadOf (pre ++ ph :: post) = some ph := by
    rw [firstLoadOf_append_nonloads pre _ hpre, firstLoadOf_cons_load _ _ htype]
  have hstep : loadSegments file gs fr (pre ++ ph :: post) m true
      = loadSegments file gs fr post (stagedSegment file gs fr ph m true)
          false := by
    rw [loadSegments_append_nonloads file gs fr pre _ m true hpre,
      loadSegments_cons_some file gs fr ph post m
        (stagedSegment file gs fr ph m true) true false
        (processSegment_load' file gs fr ph m true htype hss)]
  have hwfpost : ∀ q ∈ post, q.p_type = PT_LOAD → phWellFormed q :=
    fun q hq => hwf q (by simp [hq])
  have hdj : ∀ q ∈ post, q.p_type = PT_LOAD →
      (ph.p_paddr + ph.p_memsz ≤ q.p_paddr
        ∨ q.p_paddr + q.p_memsz ≤ ph.p_paddr) := by
    intro q hq hqt
    have hp2 := (List.pairwise_append.mp hdisj).2.1
    exact (List.pairwise_cons.mp hp2).1 q hq htype hqt
  have hframe : ∀ x, ph.p_paddr ≤ x → x < ph.p_paddr + 0x98 →
      loadSegments file gs fr post (stagedSegment file gs fr ph m true) false x
        = stagedSegment file gs fr ph m true x := fun x hx1 hx2 =>
    loadSegments_bootfield_frame file gs fr post _ ph.p_paddr ph.p_memsz hb98
      hwfpost hdj x hx1 (by omega)
  have hM1 : stagedSegment file gs fr ph m true
      = bootInfoWrites
          (zeroRange (preadCopy m file ph.p_paddr ph.p_offset ph.p_filesz)
            (ph.p_paddr + ph.p_filesz) (zlen ph))
          ph.p_paddr ph.p_filesz gs fr := by
    rw [stagedSegment, if_pos rfl]
  have hfields := bootInfoWrites_fields
    (zeroRange (preadCopy m file ph.p_paddr ph.p_offset ph.p_filesz)
      (ph.p_paddr + ph.p_filesz) (zlen ph)) ph.p_paddr ph.p_filesz gs fr
  have h64 : ∀ off, off + 8 ≤ 0x98 →
      readU64le (loadSegments file gs fr (pre ++ ph :: post) m true)
          (ph.p_paddr + off)
        = readU64le (stagedSegment file gs fr ph m true) (ph.p_paddr + off) := by
    intro off hoff
    rw [hstep]
    exact readU64le_congr _ _ _
      (fun k hk => hframe (ph.p_paddr + off + k) (by omega) (by omega))
  have h32 : ∀ off, off + 4 ≤ 0x98 →
      readU32le (loadSegments file gs fr (pre ++ ph :: post) m true)
          (ph.p_paddr + off)
        = readU32le (stagedSegment file gs fr ph m true) (ph.p_paddr + off) := by
    intro off hoff
    rw [hstep]
    exact readU32le_congr _ _ _
      (fun k hk => hframe (ph.p_paddr + off + k) (by omega) (by omega))
  refine ⟨hfl, ?_, ?_, ?_, ?_, ?_, ?_, ?_, ?_⟩
  · rw [h64 0x08 (by omega), hM1]
    exact hfields.1
  · rw [h64 0x10 (by omega), hM1]
    exact hfields.2.1
  · rw [h32 0x18 (by omega), hM1]
    exact hfields.2.2.1
  · rw [h32 0x24 (by omega), hM1]
    exact hfields.2.2.2.1
  · rw [h32 0x30 (by omega), hM1]
    exact hfields.2.2.2.2.1
  · rw [h64 0x38 (by omega), hM1]
    exact hfields.2.2.2.2.2.1
  · rw [h32 0x60 (by omega), hM1]
    exact hfields.2.2.2.2.2.2.1
  · rw [h32 0x94 (by omega), hM1]
    exact hfields.2.2.2.2.2.2.2

/-- A second, disjoint PT_LOAD segment after the first, for the C5
witness. -/
def witnessPhdr2 : Elf64Phdr :=
  { p_type := 1, p_offset := 8, p_paddr := 0x201000, p_filesz := 8,
    p_memsz := 0x100 }

/-- Witness for C5: with a second PT_LOAD segment present, the cores
field at `+0x24` of the first segment still reads 1. -/
theorem load_first_segment_bootinfo_witness :
    readU32le
        (loadSegments witnessFile 0x20000000 2100
          ([] ++ witnessPhdr :: [witnessPhdr2]) zeroMem true)
        (witnessPhdr.p_paddr + 0x24) = 1 :=
  (load_first_segment_bootinfo witnessFile 0x20000000 2100 [] [witnessPhdr2]
    witnessPhdr zeroMem (by intro q hq; cases hq) rfl (by decide)
    (by decide)).2.2.2.2.1

/-! ## Page tables (`setup_system_page_tables`, `src/tools/uhyve.c:445-472`) -/

/-- Modelled from the spec: the page-table entry flag `X86_PDPT_P` comes
from `uhyve-cpu.h`, which is not among the sources; the spec calls it
"present", the standard x86 bit 0. -/
def X86_PDPT_P : Nat := 1 <<< 0

/-- Modelled from the spec: `X86_PDPT_RW` from `uhyve-cpu.h` (not among
the sources); "writable", the standard x86 bit 1. -/
def X86_PDPT_RW : Nat := 1 <<< 1

/-- Modelled from the spec: `X86_PDPT_PS` from `uhyve-cpu.h` (not among
the sources); "page-size", the standard x86 bit 7. -/
def X86_PDPT_PS : Nat := 1 <<< 7

/-- Modelled from the spec: `X86_CR0_PE` from `uhyve-cpu.h` (not among
the sources); protected-mode enable, the standard x86 CR0 bit 0. -/
def X86_CR0_PE : Nat := 1 <<< 0

/-- Modelled from the spec: `X86_CR0_PG` from `uhyve-cpu.h` (not among
the sources); paging enable, the standard x86 CR0 bit 31. -/
def X86_CR0_PG : Nat := 1 <<< 31

/-- Modelled from the spec: `X86_CR4_PAE` from `uhyve-cpu.h` (not among
the sources); physical address extension, the standard x86 CR4 bit 5. -/
def X86_CR4_PAE : Nat := 1 <<< 5

/-- Modelled from the spec: `EFER_LME` from `asm/msr-index.h` (a host
header, not among the sources); long-mode enable, the standard EFER
bit 8. -/
def EFER_LME : Nat := 1 <<< 8

/-- The control registers of `struct kvm_sregs` used by the setup code. -/
structure KvmSregs where
  cr0 : Nat
  cr3 : Nat
  cr4 : Nat
  efer : Nat

/-- Page-table memory: `uint64_t` slots indexed by byte address (the C
code accesses the three pages only through `uint64_t*`). -/
def Mem64 : Type := Nat → Nat

/-- A `uint64_t` store through a pointer. -/
def writeSlot (m : Mem64) (a v : Nat) : Mem64 :=
  fun x => if x = a then v else m x

/-- `memset(page, 0x00, 8 * n)` viewed on `uint64_t` slots. -/
def zeroSlots (m : Mem64) (a n : Nat) : Mem64 :=
  fun x => if a ≤ x ∧ x < a + 8 * n then 0 else m x

/-- The PDE loop
`for (paddr = 0; paddr < guest_size; paddr += GUEST_PAGE_SIZE, pde++)`:
`idx` tracks the `pde` pointer as a slot index from `BOOT_PDE`. -/
def pdeLoop (gs paddr idx : Nat) (m : Mem64) : Mem64 :=
  if h : paddr < gs then
    pdeLoop gs (paddr + GUEST_PAGE_SIZE) (idx + 1)
      (writeSlot m (BOOT_PDE + 8 * idx)
        (paddr ||| (X86_PDPT_P ||| X86_PDPT_RW ||| X86_PDPT_PS)))
  else m
termination_by gs - paddr
decreasing_by simp only [GUEST_PAGE_SIZE]; omega

/-- `setup_system_page_tables` (`src/tools/uhyve.c:445-472`): zero the
three pages, write the single PML4 and PDPTE entries, fill the PDE page,
and set CR3/CR4.PAE/CR0.PG. -/
def setup_system_page_tables (guest_size : Nat) (m : Mem64)
    (sregs : KvmSregs) : Mem64 × KvmSregs :=
  let m0 := zeroSlots m BOOT_PML4 512
  let m1 := zeroSlots m0 BOOT_PDPTE 512
  let m2 := zeroSlots m1 BOOT_PDE 512
  let m3 := writeSlot m2 BOOT_PML4
    (BOOT_PDPTE ||| (X86_PDPT_P ||| X86_PDPT_RW))
  let m4 := writeSlot m3 BOOT_PDPTE
    (BOOT_PDE ||| (X86_PDPT_P ||| X86_PDPT_RW))
  let m5 := pdeLoop guest_size 0 0 m4
  (m5, { cr0 := sregs.cr0 ||| X86_CR0_PG, cr3 := BOOT_PML4,
          cr4 := sregs.cr4 ||| X86_CR4_PAE, efer := sregs.efer })

/-- `setup_system_64bit` (`src/tools/uhyve.c:438-442`). -/
def setup_system_64bit (sregs : KvmSregs) : KvmSregs :=
  { sregs with cr0 := sregs.cr0 ||| X86_CR0_PE,
               efer := sregs.efer ||| EFER_LME }

lemma pdeLoop_untouched (gs : Nat) :
    ∀ (fuel paddr idx : Nat) (m : Mem64) (x : Nat), gs - paddr = fuel →
      (∀ k, idx ≤ k → x ≠ BOOT_PDE + 8 * k) →
      pdeLoop gs paddr idx m x = m x := by
  intro fuel
  induction fuel using Nat.strong_induction_on with
  | _ fuel ih =>
    intro paddr idx m x hfuel hx
    rw [pdeLoop]
    split
    · rename_i h
      have hps : GUEST_PAGE_SIZE = 0x200000 := rfl
      rw [ih (gs - (paddr + GUEST_PAGE_SIZE)) (by omega) _ _ _ _ rfl
          (fun k hk => hx k (by omega)),
        writeSlot, if_neg (hx idx (Nat.le_refl idx))]
    · rfl

lemma pdeLoop_beyond (gs : Nat) :
    ∀ (fuel paddr idx : Nat) (m : Mem64) (k : Nat), gs - paddr = fuel →
      idx ≤ k → gs ≤ paddr + (k - idx) * GUEST_PAGE_SIZE →
      pdeLoop gs paddr idx m (BOOT_PDE + 8 * k) = m (BOOT_PDE + 8 * k) := by
  intro fuel
  induction fuel using Nat.strong_induction_on with
  | _ fuel ih =>
    intro paddr idx m k hfuel hik hbeyond
    have hps : GUEST_PAGE_SIZE = 0x200000 := rfl
    rw [pdeLoop]
    split
    · rename_i h
      have hik' : idx + 1 ≤ k := by
        rcases Nat.eq_or_lt_of_le hik with rfl | hlt
        · rw [Nat.sub_self, Nat.zero_mul, Nat.add_zero] at hbeyond
          omega
        · omega
      rw [ih (gs - (paddr + GUEST_PAGE_SIZE)) (by omega) _ _ _ _ rfl hik'
          (by rw [hps] at hbeyond ⊢; omega),
        writeSlot, if_neg (by omega)]
    · rfl

lemma pdeLoop_written (gs : Nat) :
    ∀ (fuel paddr idx : Nat) (m : Mem64) (k : Nat), gs - paddr = fuel →
      idx ≤ k → paddr + (k - idx) * GUEST_PAGE_SIZE < gs →
      pdeLoop gs paddr idx m (BOOT_PDE + 8 * k)
        = (paddr + (k - idx) * GUEST_PAGE_SIZE)
            ||| (X86_PDPT_P ||| X86_PDPT_RW ||| X86_PDPT_PS) := by
  intro fuel
  induction fuel using Nat.strong_induction_on with
  | _ fuel ih =>
    intro paddr idx m k hfuel hik hwrit
    have hps : GUEST_PAGE_SIZE = 0x200000 := rfl
    have hlt : paddr < gs := by rw [hps] at hwrit; omega
    rw [pdeLoop, dif_pos hlt]
    by_cases hk : k = idx
    · subst hk
      rw [pdeLoop_untouched gs (gs - (paddr + GUEST_PAGE_SIZE)) _ _ _ _ rfl
          (fun k' hk' => by omega),
        writeSlot, if_pos rfl, Nat.sub_self, Nat.zero_mul, Nat.add_zero]
    · have hik' : idx + 1 ≤ k := by omega
      rw [ih (gs - (paddr + GUEST_PAGE_SIZE)) (by omega) _ _ _ _ rfl hik'
          (by rw [hps] at hwrit ⊢; omega)]
      congr 1
      rw [hps] at hwrit ⊢
      omega

/-- **C9.** Under the asserted preconditions (`guest_size` a multiple of
2 MiB and at most 1 GiB = 512 PDEs), page-table setup writes exactly one
PML4 entry at 0x10000 pointing to the PDPTE page at 0x11000, one PDPTE
entry pointing to the PDE page at 0x12000, and one PDE entry per 2 MiB of
`[0, guest_size)` mapping each address to itself with present, writable
and page-size flags; all remaining entries of the three pages are zero,
and the sregs get CR3 = 0x10000 and the CR4.PAE (bit 5) and CR0.PG
(bit 31) flags set. -/
theorem setup_page_tables_spec (gs : Nat) (m : Mem64) (s : KvmSregs)
    (hmul : gs % GUEST_PAGE_SIZE = 0) (hmax : gs ≤ GUEST_PAGE_SIZE * 512) :
    (setup_system_page_tables gs m s).1 BOOT_PML4
        = BOOT_PDPTE ||| (X86_PDPT_P ||| X86_PDPT_RW)
      ∧ (∀ i, 1 ≤ i → i < 512 →
          (setup_system_page_tables gs m s).1 (BOOT_PML4 + 8 * i) = 0)
      ∧ (setup_system_page_tables gs m s).1 BOOT_PDPTE
        = BOOT_PDE ||| (X86_PDPT_P ||| X86_PDPT_RW)
      ∧ (∀ i, 1 ≤ i → i < 512 →
          (setup_system_page_tables gs m s).1 (BOOT_PDPTE + 8 * i) = 0)
      ∧ (∀ k, k < gs / GUEST_PAGE_SIZE →
          (setup_system_page_tables gs m s).1 (BOOT_PDE + 8 * k)
            = (k * GUEST_PAGE_SIZE)
                ||| (X86_PDPT_P ||| X86_PDPT_RW ||| X86_PDPT_PS))
      ∧ (∀ k, gs / GUEST_PAGE_SIZE ≤ k → k < 512 →
          (setup_system_page_tables gs m s).1 (BOOT_PDE + 8 * k) = 0)
      ∧ (setup_system_page_tables gs m s).2.cr3 = BOOT_PML4
      ∧ ((setup_system_page_tables gs m s).2.cr4).testBit 5 = true
      ∧ ((setup_system_page_tables gs m s).2.cr0).testBit 31 = true := by
  have hm5 : (setup_system_page_tables gs m s).1
      = pdeLoop gs 0 0
          (writeSlot
            (writeSlot
              (zeroSlots (zeroSlots (zeroSlots m BOOT_PML4 512)
                BOOT_PDPTE 512) BOOT_PDE 512)
              BOOT_PML4 (BOOT_PDPTE ||| (X86_PDPT_P ||| X86_PDPT_RW)))
            BOOT_PDPTE (BOOT_PDE ||| (X86_PDPT_P ||| X86_PDPT_RW))) := rfl
  refine ⟨?_, ?_, ?_, ?_, ?_, ?_, rfl, ?_, ?_⟩
  · rw [hm5, pdeLoop_untouched gs (gs - 0) 0 0 _ _ rfl
      (fun k hk => by simp only [BOOT_PML4, BOOT_PDE]; omega)]
    simp only [writeSlot, BOOT_PML4, BOOT_PDPTE, BOOT_PDE]
    split_ifs <;> omega
  · intro i h1 h2
    rw [hm5, pdeLoop_untouched gs (gs - 0) 0 0 _ _ rfl
      (fun k hk => by simp only [BOOT_PML4, BOOT_PDE]; omega)]
    simp only [writeSlot, zeroSlots, BOOT_PML4, BOOT_PDPTE, BOOT_PDE]
    split_ifs <;> omega
  · rw [hm5, pdeLoop_untouched gs (gs - 0) 0 0 _ _ rfl
      (fun k hk => by simp only [BOOT_PDPTE, BOOT_PDE]; omega)]
    simp only [writeSlot, BOOT_PML4, BOOT_PDPTE, BOOT_PDE]
    split_ifs <;> omega
  · intro i h1 h2
    rw [hm5, pdeLoop_untouched gs (gs - 0) 0 0 _ _ rfl
      (fun k hk => by simp only [BOOT_PDPTE, BOOT_PDE]; omega)]
    simp only [writeSlot, zeroSlots, BOOT_PML4, BOOT_PDPTE, BOOT_PDE]
    split_ifs <;> omega
  · intro k hk
    rw [hm5, pdeLoop_written gs (gs - 0) 0 0 _ k rfl (Nat.zero_le k)
      (by simp only [GUEST_PAGE_SIZE] at hmul hk ⊢; omega)]
    congr 1
    simp only [GUEST_PAGE_SIZE]
    omega
  · intro k hk1 hk2
    rw [hm5, pdeLoop_beyond gs (gs - 0) 0 0 _ k rfl (Nat.zero_le k)
      (by simp only [GUEST_PAGE_SIZE] at hmul hk1 ⊢; omega)]
    simp only [writeSlot, zeroSlots, BOOT_PML4, BOOT_PDPTE, BOOT_PDE]
    split_ifs <;> omega
  · show (s.cr4 ||| X86_CR4_PAE).testBit 5 = true
    rw [Nat.testBit_or]
    have h : Nat.testBit X86_CR4_PAE 5 = true := by decide
    rw [h, Bool.or_true]
  · show (s.cr0 ||| X86_CR0_PG).testBit 31 = true
    rw [Nat.testBit_or]
    have h : Nat.testBit X86_CR0_PG 31 = true := by decide
    rw [h, Bool.or_true]

/-- Witness for C9 at `guest_size = 0x200000` (one 2 MiB page): the first
PDE entry maps address 0 with the three flags. -/
theorem setup_page_tables_spec_witness :
    (setup_system_page_tables 0x200000 (fun _ => 37)
        { cr0 := 0, cr3 := 0, cr4 := 0, efer := 0 }).1 (BOOT_PDE + 8 * 0)
      = 0 * GUEST_PAGE_SIZE ||| (X86_PDPT_P ||| X86_PDPT_RW ||| X86_PDPT_PS) :=
  (setup_page_tables_spec 0x200000 (fun _ => 37)
    { cr0 := 0, cr3 := 0, cr4 := 0, efer := 0 } (by decide)
    (by decide)).2.2.2.2.1 0 (by decide)

end Uhyve

